import Mathlib

/-!
node-ydl-cli: a shallow embedding of `index.js`.

The development covers the whole source file: the itag allow-lists, the format
filter of `getVideoInfo`, `formatSize` / `formatTime`, the `ProgressBar` class,
`sanitizeFilename`, the transcode decision, and the two jobs `downloadVideo` and
`downloadAudioOnly`. Definitions come first, theorems after them.

Conventions of the embedding.

* JavaScript strings whose individual characters matter (the title and the paths built
  from it) are lists of UTF-16 code units (`JsString`); fixed ASCII texts (quality
  labels, error messages, bitrate arguments) are Lean strings.
* JavaScript numbers that are integers in the program (itags, byte counts, clock
  readings of `Date.now()`) are `Nat` / `Int`. Numbers obtained by division are
  `JsNum`: an exact rational, or one of `Infinity`, `-Infinity`, `NaN`. Division by
  zero follows IEEE 754; rounding of finite quotients to binary64 is not modelled.
* External collaborators (`ytdl`, `ffmpeg`, `inquirer`, `uuid`, the clock, the
  `cli-progress` bar) are inputs: their answers are fields of an environment record,
  and calls made to them are recorded in a log.
-/

namespace YdlCli

/-! ## Allow-lists (index.js lines 10-18) -/

/-- The object literal `VIDEO_ITAGS`, in source order. -/
def VIDEO_ITAGS : List (Nat × String) :=
  [ (299, "1080p60 (mp4/avc1)"), (298, "720p60 (mp4/avc1)"), (137, "1080p (mp4/avc1)"),
    (136, "720p (mp4/avc1)"), (135, "480p (mp4/avc1)"), (134, "360p (mp4/avc1)"),
    (133, "240p (mp4/avc1)"), (160, "144p (mp4/avc1)"), (303, "1080p60 (webm/vp9)"),
    (302, "720p60 (webm/vp9)"), (271, "1440p (webm/vp9)"), (313, "2160p (webm/vp9)"),
    (248, "1080p (webm/vp9)"), (247, "720p (webm/vp9)"), (244, "480p (webm/vp9)"),
    (243, "360p (webm/vp9)"), (242, "240p (webm/vp9)"), (278, "144p (webm/vp9)") ]

/-- The object literal `AUDIO_ITAGS`, in source order. -/
def AUDIO_ITAGS : List (Nat × String) :=
  [ (141, "256kbps (m4a/mp4a)"), (251, "160kbps (webm/opus)"), (140, "128kbps (m4a/mp4a)"),
    (250, "70kbps (webm/opus)") ]

/-- The object literal `MP3_BITRATES`, in source order. -/
def MP3_BITRATES : List (String × String) :=
  [ ("320k", "320 kbps"), ("256k", "256 kbps"), ("192k", "192 kbps"), ("160k", "160 kbps"),
    ("128k", "128 kbps") ]

/-- Property read `table[itag]` on an itag table: `none` is `undefined`. -/
def itagLookup (table : List (Nat × String)) (itag : Nat) : Option String :=
  table.lookup itag

/-- JavaScript truthiness of a value that is a string or `undefined`. -/
def truthyStr : Option String → Bool
  | none => false
  | some s => s != ""

/-! ## JavaScript objects with integer keys

`availableVideoItags` and `availableAudioItags` are plain objects whose keys are
itags. All keys are array indices, so `Object.entries` enumerates them in ascending
numeric order whatever the order of insertion. The object is kept as its list of
entries in enumeration order. -/

/-- An object with integer keys, as the list `Object.entries` returns. -/
abbrev JsObj := List (Nat × String)

/-- Assignment `obj[k] = v`. -/
def objSet : JsObj → Nat → String → JsObj
  | [], k, v => [(k, v)]
  | (k', v') :: rest, k, v =>
    if k < k' then (k, v) :: (k', v') :: rest
    else if k = k' then (k, v) :: rest
    else (k', v') :: objSet rest k v

/-! ## Built-ins used by the filter -/

/-- Value of a run of ASCII decimal digits. -/
def parseDigits (ds : List Char) : Nat :=
  ds.foldl (fun n c => 10 * n + (c.toNat - 48)) 0

/-- The match of `/\d+/` in a text: the first maximal run of ASCII digits, or `none`
when `String.prototype.match` returns `null`. -/
def matchDigits (s : List Char) : Option (List Char) :=
  match s.dropWhile (fun c => !c.isDigit) with
  | [] => none
  | rest => some (rest.takeWhile Char.isDigit)

/-- Stable insertion step of `Array.prototype.sort(cmp)`: `x` originally precedes
every element of the list, so it goes before the first element it does not have to
follow. -/
def insertBy {α : Type} (cmp : α → α → Int) (x : α) : List α → List α
  | [] => [x]
  | y :: ys => if cmp x y ≤ 0 then x :: y :: ys else y :: insertBy cmp x ys

/-- The result of `Array.prototype.sort(cmp)`, a stable sort (ECMAScript 2019): the
unique stable arrangement for a consistent comparator, computed by insertion. -/
def sortBy {α : Type} (cmp : α → α → Int) : List α → List α
  | [] => []
  | x :: xs => insertBy cmp x (sortBy cmp xs)

/-! ## getVideoInfo (index.js lines 91-129) -/

/-- UTF-16 code units of a JavaScript string. -/
abbrev JsString := List Nat

/-- A format descriptor of `ytdl.getInfo`, with the fields the program reads. -/
structure RawFormat where
  itag : Nat
  hasVideo : Bool
  hasAudio : Bool
  container : String
  contentLength : Option String
  audioBitrate : Option Nat
deriving DecidableEq, Repr

/-- The value `ytdl.getInfo` resolves to. -/
structure RawInfo where
  title : JsString
  formats : List RawFormat
deriving DecidableEq, Repr

/-- An element of `availableVideoFormats`. -/
structure VideoEntry where
  itag : Nat
  quality : String
  resolution : Nat
deriving DecidableEq, Repr

/-- An element of `availableAudioFormats`. -/
structure AudioEntry where
  itag : Nat
  quality : String
  bitrate : Nat
deriving DecidableEq, Repr

/-- The object `getVideoInfo` returns. -/
structure MediaInfo where
  title : JsString
  formats : List RawFormat
  availableVideoFormats : List VideoEntry
  availableAudioFormats : List AudioEntry
deriving DecidableEq, Repr

/-- How a call of `getVideoInfo` ends: it returns, or its `catch` block logs
`error.message` and calls `process.exit(code)`. -/
inductive InfoOutcome where
  | returned (info : MediaInfo)
  | exited (code : Nat) (message : String)
deriving DecidableEq, Repr

/-- Condition of the first branch of the `forEach` callback (line 97). -/
def isVideoOnlyAllowed (f : RawFormat) : Bool :=
  f.hasVideo && !f.hasAudio && truthyStr (itagLookup VIDEO_ITAGS f.itag)

/-- Condition of the second branch of the `forEach` callback (line 99). -/
def isAudioOnlyAllowed (f : RawFormat) : Bool :=
  !f.hasVideo && f.hasAudio && truthyStr (itagLookup AUDIO_ITAGS f.itag)

/-- One call of the `forEach` callback on the pair
`(availableVideoItags, availableAudioItags)`. -/
def collectStep (acc : JsObj × JsObj) (f : RawFormat) : JsObj × JsObj :=
  if isVideoOnlyAllowed f then
    (objSet acc.1 f.itag ((itagLookup VIDEO_ITAGS f.itag).getD ""), acc.2)
  else if isAudioOnlyAllowed f then
    (acc.1, objSet acc.2 f.itag ((itagLookup AUDIO_ITAGS f.itag).getD ""))
  else acc

/-- The two objects after `info.formats.forEach(...)`. -/
def collectItags (formats : List RawFormat) : JsObj × JsObj :=
  formats.foldl collectStep ([], [])

/-- The expression `parseInt(quality.match(/\d+/)[0])`; the error is the `TypeError`
of indexing `null`. -/
def qualityRank (quality : String) : Except String Nat :=
  match matchDigits quality.toList with
  | none => .error "Cannot read properties of null (reading '0')"
  | some ds => .ok (parseDigits ds)

/-- The callback of `.map` on the video entries. -/
def videoEntry (kv : Nat × String) : Except String VideoEntry :=
  match qualityRank kv.2 with
  | .error e => .error e
  | .ok r => .ok { itag := kv.1, quality := kv.2, resolution := r }

/-- The callback of `.map` on the audio entries. -/
def audioEntry (kv : Nat × String) : Except String AudioEntry :=
  match qualityRank kv.2 with
  | .error e => .error e
  | .ok r => .ok { itag := kv.1, quality := kv.2, bitrate := r }

/-- `Array.prototype.map` with a callback that may throw. -/
def mapThrowing {α β : Type} (f : α → Except String β) : List α → Except String (List β)
  | [] => .ok []
  | x :: xs =>
    match f x with
    | .error e => .error e
    | .ok y =>
      match mapThrowing f xs with
      | .error e => .error e
      | .ok ys => .ok (y :: ys)

/-- Comparator `(a, b) => b.resolution - a.resolution`. -/
def videoCmp (a b : VideoEntry) : Int := (b.resolution : Int) - (a.resolution : Int)

/-- Comparator `(a, b) => b.bitrate - a.bitrate`. -/
def audioCmp (a b : AudioEntry) : Int := (b.bitrate : Int) - (a.bitrate : Int)

/-- The function `getVideoInfo`, applied to the settled result of `ytdl.getInfo(url)`
(`.error msg` is a rejection with that message). -/
def getVideoInfo (catalog : Except String RawInfo) : InfoOutcome :=
  match catalog with
  | .error msg => .exited 1 msg
  | .ok info =>
    let objs := collectItags info.formats
    match mapThrowing videoEntry objs.1 with
    | .error msg => .exited 1 msg
    | .ok ves =>
      let sortedVideoFormats := sortBy videoCmp ves
      match mapThrowing audioEntry objs.2 with
      | .error msg => .exited 1 msg
      | .ok aes =>
        let sortedAudioFormats := sortBy audioCmp aes
        if sortedVideoFormats.length = 0 then
          .exited 1 "No compatible video formats found"
        else if sortedAudioFormats.length = 0 then
          .exited 1 "No compatible audio formats found"
        else
          .returned
            { title := info.title
              formats := info.formats
              availableVideoFormats := sortedVideoFormats
              availableAudioFormats := sortedAudioFormats }

/-! ## Numbers obtained by division -/

/-- A JavaScript number that may come out of a division: an exact rational or one of
the three non-finite values. Zero is unsigned: every zero divisor of the program is
the `+0` of an integer subtraction, possibly divided by a positive number. -/
inductive JsNum where
  | fin (q : ℚ)
  | posInf
  | negInf
  | nan
deriving DecidableEq

namespace JsNum

/-- The operator `/`. -/
def div : JsNum → JsNum → JsNum
  | fin a, fin b =>
    if b = 0 then (if a = 0 then nan else if 0 < a then posInf else negInf) else fin (a / b)
  | fin _, posInf => fin 0
  | fin _, negInf => fin 0
  | posInf, fin b => if 0 ≤ b then posInf else negInf
  | negInf, fin b => if 0 ≤ b then negInf else posInf
  | _, _ => nan

/-- The operator `%` (the remainder has the sign of the dividend). -/
def mod : JsNum → JsNum → JsNum
  | fin a, fin b => if b = 0 then nan else fin (a - b * ((a / b).num.tdiv (a / b).den : Int))
  | fin a, posInf => fin a
  | fin a, negInf => fin a
  | _, _ => nan

/-- The comparison `x < y`; false when an operand is `NaN`. -/
def lt : JsNum → JsNum → Bool
  | fin a, fin b => decide (a < b)
  | fin _, posInf => true
  | negInf, fin _ => true
  | negInf, posInf => true
  | _, _ => false

/-- The comparison `x >= y`; false when an operand is `NaN`. -/
def ge : JsNum → JsNum → Bool
  | fin a, fin b => decide (b ≤ a)
  | posInf, fin _ => true
  | fin _, negInf => true
  | posInf, posInf => true
  | negInf, negInf => true
  | posInf, negInf => true
  | _, _ => false

/-- The text of `${Math.floor(x)}` (plain decimal digits for a finite value). -/
def floorText : JsNum → String
  | fin q => toString (Rat.floor q)
  | posInf => "Infinity"
  | negInf => "-Infinity"
  | nan => "NaN"

/-- The text of `x.toFixed(1)`: the nearest multiple of one tenth, the larger one on a
tie, after the sign has been split off. -/
def toFixed1 : JsNum → String
  | fin q =>
    let n := (Rat.floor (|q| * 10 + 1 / 2)).toNat
    (if q < 0 then "-" else "") ++ toString (n / 10) ++ "." ++ toString (n % 10)
  | posInf => "Infinity"
  | negInf => "-Infinity"
  | nan => "NaN"

end JsNum

/-! ## formatSize and formatTime (index.js lines 20-36) -/

/-- The array `units` of `formatSize`. -/
def units : List String := ["B", "KB", "MB", "GB"]

/-- The `while` loop of `formatSize`, started with `fuel = units.length - 1 - unitIndex`
remaining iterations; the loop cannot run longer because `unitIndex` grows by one each
time. -/
def formatSizeLoop : Nat → JsNum → Nat → JsNum × Nat
  | 0, size, unitIndex => (size, unitIndex)
  | fuel + 1, size, unitIndex =>
    if size.ge (.fin 1024) && decide (unitIndex < units.length - 1) then
      formatSizeLoop fuel (size.div (.fin 1024)) (unitIndex + 1)
    else (size, unitIndex)

/-- The function `formatSize`. -/
def formatSize (bytes : JsNum) : String :=
  let r := formatSizeLoop (units.length - 1) bytes 0
  r.1.toFixed1 ++ units.getD r.2 "undefined"

/-- The function `formatTime`. -/
def formatTime (seconds : JsNum) : String :=
  if seconds.lt (.fin 60) then seconds.floorText ++ "s"
  else
    let minutes := seconds.div (.fin 60)
    if minutes.lt (.fin 60) then
      minutes.floorText ++ "m " ++ (seconds.mod (.fin 60)).floorText ++ "s"
    else
      let hours := minutes.div (.fin 60)
      hours.floorText ++ "h " ++ (minutes.mod (.fin 60)).floorText ++ "m"

/-! ## ProgressBar (index.js lines 43-90) -/

/-- The payload object handed to the `cli-progress` bar. -/
structure Payload where
  downloaded : String
  total : Option String
  speed : String
  eta : String
deriving DecidableEq, Repr

/-- A call made on `this.bar`. -/
inductive BarCall where
  | start (total : Int) (value : Int) (payload : Payload)
  | update (value : Int) (payload : Payload)
  | stop
deriving DecidableEq, Repr

/-- An instance of `ProgressBar`. The field `bar` is the list of calls made so far on
the `cli-progress` bar, oldest first; what a reader of the terminal is shown is what
these calls hand over. -/
structure ProgressBar where
  bar : List BarCall
  total : Int
  current : Int
  startTime : Int
  lastUpdate : Int
  lastBytes : Int
deriving DecidableEq, Repr

/-- The constructor, run when `Date.now()` reads `now` (milliseconds). -/
def ProgressBar.new (total : Int) (now : Int) : ProgressBar :=
  let formattedTotal := formatSize (.fin total)
  { bar := [.start total 0
      { downloaded := "0B", total := some formattedTotal, speed := "0B",
        eta := "calculating..." }]
    total := total
    current := 0
    startTime := now
    lastUpdate := now
    lastBytes := 0 }

/-- The value `timeDiff` of `update`. -/
def ProgressBar.timeDiff (pb : ProgressBar) (now : Int) : JsNum :=
  JsNum.div (.fin ((now - pb.lastUpdate : Int) : ℚ)) (.fin 1000)

/-- The guard `timeDiff >= 0.5` of `update`: whether this call recomputes and renders. -/
def ProgressBar.emits (pb : ProgressBar) (now : Int) : Bool :=
  (pb.timeDiff now).ge (.fin (1 / 2))

/-- The value `speed` of `update`. -/
def ProgressBar.speed (pb : ProgressBar) (now : Int) (downloaded : Int) : JsNum :=
  JsNum.div (.fin ((downloaded - pb.lastBytes : Int) : ℚ)) (pb.timeDiff now)

/-- The value `eta` of `update`. -/
def ProgressBar.eta (pb : ProgressBar) (now : Int) (downloaded : Int) : JsNum :=
  JsNum.div (.fin ((pb.total - downloaded : Int) : ℚ)) (pb.speed now downloaded)

/-- The method `update(downloaded)`, run when `Date.now()` reads `now`. -/
def ProgressBar.update (pb : ProgressBar) (now : Int) (downloaded : Int) : ProgressBar :=
  if pb.emits now then
    { pb with
      bar := pb.bar ++ [.update downloaded
        { downloaded := formatSize (.fin downloaded), total := none,
          speed := formatSize (pb.speed now downloaded),
          eta := formatTime (pb.eta now downloaded) }]
      lastUpdate := now
      lastBytes := downloaded }
  else pb

/-- The method `finish()`. -/
def ProgressBar.finish (pb : ProgressBar) : ProgressBar :=
  { pb with
    bar := pb.bar ++ [.update pb.total
      { downloaded := formatSize (.fin pb.total), total := none, speed := "0B", eta := "0s" },
      .stop] }

/-- A sequence of `update` calls, each with its clock reading and its byte count. -/
def ProgressBar.updates (pb : ProgressBar) (calls : List (Int × Int)) : ProgressBar :=
  calls.foldl (fun p c => p.update c.1 c.2) pb

/-- The figure last handed to the bar: value and payload of the last `start` or
`update` call. -/
def lastFigure (calls : List BarCall) : Option (Int × Payload) :=
  calls.foldl
    (fun acc c =>
      match c with
      | .start _ v p => some (v, p)
      | .update v p => some (v, p)
      | .stop => acc)
    none

/-! ## sanitizeFilename (index.js lines 130-132) -/

/-- Code units of an ASCII text. -/
def js (s : String) : JsString := s.toList.map Char.toNat

/-- The code units matched by `\s` (WhiteSpace and LineTerminator of ECMAScript). -/
def whiteSpaceUnits : List Nat :=
  [0x09, 0x0A, 0x0B, 0x0C, 0x0D, 0x20, 0xA0, 0x1680, 0x2000, 0x2001, 0x2002, 0x2003, 0x2004,
   0x2005, 0x2006, 0x2007, 0x2008, 0x2009, 0x200A, 0x2028, 0x2029, 0x202F, 0x205F, 0x3000,
   0xFEFF]

/-- The members of the class `[a-z0-9\s-_.]`. In a pattern without the `u` flag a class
escape cannot bound a range, so `\s-_` is `\s`, the hyphen and the underscore. -/
def sanitizeCharSet : List Nat :=
  List.range' 0x61 26 ++ List.range' 0x30 10 ++ whiteSpaceUnits ++ [0x2D, 0x5F, 0x2E]

/-- The operation Canonicalize of a pattern with the `i` flag and without the `u` flag:
upper-casing, never from a non-ASCII code unit to an ASCII one. On non-ASCII code units
it is taken as the identity: their upper-case forms are non-ASCII and are not white
space, so membership in the class above is the same. -/
def canonicalize (c : Nat) : Nat :=
  if 0x61 ≤ c ∧ c ≤ 0x7A then c - 0x20 else c

/-- Whether a code unit matches `[^a-z0-9\s-_.]` under the `i` flag: no member of the
class has the same canonical form. -/
def sanitizeMatches (c : Nat) : Bool :=
  !(sanitizeCharSet.any (fun a => canonicalize a == canonicalize c))

/-- `String.prototype.replace` with a global pattern that matches single code units. -/
def replaceAll (isMatch : Nat → Bool) (replacement : JsString) : JsString → JsString
  | [] => []
  | c :: cs =>
    if isMatch c then replacement ++ replaceAll isMatch replacement cs
    else c :: replaceAll isMatch replacement cs

/-- The function `sanitizeFilename`. -/
def sanitizeFilename (filename : JsString) : JsString :=
  replaceAll sanitizeMatches (js "_") filename

/-! ## parseInt and the transcode decision (index.js lines 146-148) -/

/-- Value of a digit of `parseInt` in the given radix, if the character is one. -/
def digitValue (radix : Nat) (c : Char) : Option Nat :=
  let v :=
    if c.isDigit then c.toNat - 48
    else if 'a'.toNat ≤ c.toNat ∧ c.toNat ≤ 'z'.toNat then c.toNat - 'a'.toNat + 10
    else if 'A'.toNat ≤ c.toNat ∧ c.toNat ≤ 'Z'.toNat then c.toNat - 'A'.toNat + 10
    else radix
  if v < radix then some v else none

/-- `parseInt(text)` without a radix argument: white space is skipped, then an optional
sign, an optional `0x` prefix, and the longest run of digits; `none` is `NaN`. -/
def parseInt (text : List Char) : Option Int :=
  let s1 := text.dropWhile (fun c => whiteSpaceUnits.contains c.toNat)
  let signed : Bool × List Char :=
    match s1 with
    | '-' :: r => (true, r)
    | '+' :: r => (false, r)
    | r => (false, r)
  let based : Nat × List Char :=
    match signed.2 with
    | '0' :: 'x' :: r => (16, r)
    | '0' :: 'X' :: r => (16, r)
    | r => (10, r)
  let ds := based.2.takeWhile (fun c => (digitValue based.1 c).isSome)
  if ds.isEmpty then none
  else
    let v : Nat := ds.foldl (fun n c => based.1 * n + (digitValue based.1 c).getD 0) 0
    some (if signed.1 then -(v : Int) else (v : Int))

/-- `parseInt(audioFormat.audioBitrate)`: the field is a number (an integer bitrate,
far below the 10^21 from which a number is printed with an exponent) or `undefined`. -/
def sourceBitrateOf (audioBitrate : Option Nat) : Option Int :=
  audioBitrate.map Int.ofNat

/-- The argument `targetBitrate` of `downloadVideo`: `null` (the default) or a text such
as the key `"320k"` of `MP3_BITRATES` the prompt answers with. Truthiness. -/
def targetTruthy : Option String → Bool
  | none => false
  | some s => s != ""

/-- The value `requestedBitrate`. -/
def requestedBitrateOf (targetBitrate : Option String) (sourceBitrate : Option Int) :
    Option Int :=
  if targetTruthy targetBitrate then
    match targetBitrate with
    | some s => parseInt s.toList
    | none => none
  else sourceBitrate

/-- The comparison `a > b` of two numbers that may be `NaN`. -/
def jsGt : Option Int → Option Int → Bool
  | some a, some b => decide (a > b)
  | _, _ => false

/-- The value `needsUpscaling`. -/
def needsUpscaling (audioBitrate : Option Nat) (targetBitrate : Option String) : Bool :=
  let sourceBitrate := sourceBitrateOf audioBitrate
  let requestedBitrate := requestedBitrateOf targetBitrate sourceBitrate
  jsGt requestedBitrate sourceBitrate

/-! ## The ffmpeg invocations (index.js lines 197-228 and 284-307) -/

/-- A call of the `fluent-ffmpeg` command builder (event handlers left out). -/
inductive FfmpegCall where
  | input (path : JsString)
  | outputOptions (options : List String)
  | audioFrequency (hz : Nat)
  | audioBitrate (bitrate : Option String)
  | toFormat (format : String)
  | output (path : JsString)
  | run
deriving DecidableEq, Repr

/-- The command `downloadVideo` builds and runs. -/
def mergeCommand (videoPath audioPath outputFile : JsString) (upscale : Bool)
    (targetBitrate : Option String) : List FfmpegCall :=
  [.input videoPath, .input audioPath, .outputOptions ["-c:v copy"]]
    ++ (if upscale then [.audioFrequency 48000, .audioBitrate targetBitrate]
        else [.outputOptions ["-c:a copy"]])
    ++ [.output outputFile, .run]

/-- The command `downloadAudioOnly` builds and runs. -/
def convertCommand (audioPath outputFile : JsString) (targetBitrate : String) :
    List FfmpegCall :=
  [.input audioPath, .toFormat "mp3", .audioBitrate (some targetBitrate), .output outputFile,
   .run]

/-- The function `getBitrateChoices`: name and value of each prompt choice. -/
def getBitrateChoices (sourceBitrate : Nat) : List (String × String) :=
  MP3_BITRATES.map fun vl =>
    (vl.2 ++ (if jsGt (parseInt vl.1.toList) (some (sourceBitrate : Int)) then " (will upscale)"
              else ""),
     vl.1)

/-! ## The jobs (index.js lines 133-319)

A job is run against an environment that fixes what the collaborators answer. File
system calls are taken to succeed; the file system is the list of paths that exist. -/

/-- `path.join(a, b)` for a directory and one further segment. -/
def pathJoin (a b : JsString) : JsString := a ++ js "/" ++ b

/-- What the collaborators answer during one job. An `.error msg` is a rejection or an
`error` event whose `message` is `msg`. -/
structure Env where
  tmpdir : JsString
  homedir : JsString
  uuid1 : JsString
  uuid2 : JsString
  uuid3 : JsString
  fs : List JsString
  catalog : Except String RawInfo
  videoStream : Except String Unit
  audioStream : Except String Unit
  prompt : Except String String
  ffmpeg : Except String Unit

/-- What a job does that is visible from outside, besides the file system. -/
inductive Event where
  | infoFailed (message : String)
  | streamOpened (itag : Nat)
  | ffmpegRun (command : List FfmpegCall)
  | errorReported (message : String)
  | cleanedUp
deriving DecidableEq, Repr

/-- File system and log while a job runs. -/
structure World where
  fs : List JsString
  log : List Event
deriving DecidableEq, Repr

/-- How the `try` block of a job ends: by its `return`, by an exception that reaches
the job's `catch`, or inside `getVideoInfo` by `process.exit`, which ends the process
on the spot. -/
inductive BodyEnd where
  | returned (outputFile : JsString)
  | thrown (message : String)
  | exited (code : Nat)
deriving DecidableEq, Repr

/-- The outcome of a job: the paths that exist and the log when the process exits, the
exit status, and how the `try` block ended. -/
structure JobResult where
  fs : List JsString
  log : List Event
  exitCode : Nat
  ending : BodyEnd
deriving DecidableEq, Repr

/-- `fs.mkdirSync(p, { recursive: true })`, also used for the creation of a file. -/
def mkdirSync (fs : List JsString) (p : JsString) : List JsString :=
  if p ∈ fs then fs else fs ++ [p]

/-- `fs.rmSync(dir, { recursive: true, force: true })`. -/
def rmSync (fs : List JsString) (dir : JsString) : List JsString :=
  fs.filter fun p => !(p == dir || (dir ++ js "/").isPrefixOf p)

/-- `getDefaultOutputPath()`. -/
def getDefaultOutputPath (env : Env) : JsString :=
  pathJoin (pathJoin env.homedir (js "Downloads")) (js "YouTube")

/-- `outputPath || getDefaultOutputPath()`. -/
def resolveOutputPath (env : Env) (outputPath : Option JsString) : JsString :=
  match outputPath with
  | none => getDefaultOutputPath env
  | some p => if p.isEmpty then getDefaultOutputPath env else p

/-- The temporary directory of a job. -/
def tempDirOf (env : Env) : JsString :=
  pathJoin env.tmpdir (js "yt_download_" ++ env.uuid1)

/-- One of the three download promises: the stream is opened, the size is looked up, the
destination file is created, and the stream finishes or fails. The second component is
the message of the rejection, if any. -/
def fetchStream (w : World) (formats : List RawFormat) (itag : Nat) (dest : JsString)
    (kind : String) (stream : Except String Unit) : World × Option String :=
  let w1 : World := { w with log := w.log ++ [.streamOpened itag] }
  match formats.find? (fun f => f.itag == itag) with
  | none => (w1, some ("Could not determine " ++ kind ++ " size"))
  | some format =>
    if !(truthyStr format.contentLength) then
      (w1, some ("Could not determine " ++ kind ++ " size"))
    else
      let w2 : World := { w1 with fs := mkdirSync w1.fs dest }
      match stream with
      | .error msg => (w2, some (kind.capitalize ++ " download failed: " ++ msg))
      | .ok _ => (w2, none)

/-- The `try` block of `downloadVideo`. -/
def downloadVideoBody (env : Env) (videoItag audioItag : Nat) (targetBitrate : Option String)
    (outputPath : Option JsString) (tempDir : JsString) (w : World) : World × BodyEnd :=
  let outputPath := resolveOutputPath env outputPath
  let w : World := { w with fs := mkdirSync w.fs outputPath }
  match getVideoInfo env.catalog with
  | .exited code msg => ({ w with log := w.log ++ [.infoFailed msg] }, .exited code)
  | .returned info =>
    let videoPath := pathJoin tempDir (env.uuid2 ++ js ".mp4")
    match info.formats.find? (fun f => f.itag == audioItag) with
    | none => (w, .thrown "Cannot read properties of undefined (reading 'container')")
    | some audioFormat =>
      let audioPath := pathJoin tempDir (env.uuid3 ++ js "." ++ js audioFormat.container)
      let outputFile := pathJoin outputPath (sanitizeFilename info.title ++ js ".mp4")
      let upscale := needsUpscaling audioFormat.audioBitrate targetBitrate
      match fetchStream w info.formats videoItag videoPath "video" env.videoStream with
      | (w, some msg) => (w, .thrown msg)
      | (w, none) =>
        match fetchStream w info.formats audioItag audioPath "audio" env.audioStream with
        | (w, some msg) => (w, .thrown msg)
        | (w, none) =>
          let command := mergeCommand videoPath audioPath outputFile upscale targetBitrate
          let w : World := { w with log := w.log ++ [.ffmpegRun command] }
          match env.ffmpeg with
          | .error msg => (w, .thrown msg)
          | .ok _ => ({ w with fs := mkdirSync w.fs outputFile }, .returned outputFile)

/-- The `try` block of `downloadAudioOnly` (its parameter `audioItag` is never read). -/
def downloadAudioOnlyBody (env : Env) (outputPath : Option JsString) (tempDir : JsString)
    (w : World) : World × BodyEnd :=
  let outputPath := resolveOutputPath env outputPath
  let w : World := { w with fs := mkdirSync w.fs outputPath }
  match getVideoInfo env.catalog with
  | .exited code msg => ({ w with log := w.log ++ [.infoFailed msg] }, .exited code)
  | .returned info =>
    match info.availableAudioFormats.head? with
    | none => (w, .thrown "Cannot read properties of undefined (reading 'quality')")
    | some bestAudio =>
      match info.formats.find? (fun f => f.itag == bestAudio.itag) with
      | none => (w, .thrown "Cannot read properties of undefined (reading 'container')")
      | some format =>
        let audioPath := pathJoin tempDir (env.uuid2 ++ js "." ++ js format.container)
        match env.prompt with
        | .error msg => (w, .thrown msg)
        | .ok targetBitrate =>
          let outputFile := pathJoin outputPath (sanitizeFilename info.title ++ js ".mp3")
          match fetchStream w info.formats bestAudio.itag audioPath "audio" env.audioStream with
          | (w, some msg) => (w, .thrown msg)
          | (w, none) =>
            let command := convertCommand audioPath outputFile targetBitrate
            let w : World := { w with log := w.log ++ [.ffmpegRun command] }
            match env.ffmpeg with
            | .error msg => (w, .thrown msg)
            | .ok _ => ({ w with fs := mkdirSync w.fs outputFile }, .returned outputFile)

/-- The `catch` and `finally` blocks shared by the two jobs. They are not reached when
the process has already exited inside the `try` block. -/
def concludeJob (tempDir : JsString) (w : World) (ending : BodyEnd) : JobResult :=
  match ending with
  | .exited code => { fs := w.fs, log := w.log, exitCode := code, ending := ending }
  | .returned _ =>
    if tempDir ∈ w.fs then
      { fs := rmSync w.fs tempDir, log := w.log ++ [.cleanedUp], exitCode := 0,
        ending := ending }
    else { fs := w.fs, log := w.log, exitCode := 0, ending := ending }
  | .thrown msg =>
    let log := w.log ++ [.errorReported msg]
    if tempDir ∈ w.fs then
      { fs := rmSync w.fs tempDir, log := log ++ [.cleanedUp], exitCode := 1,
        ending := ending }
    else { fs := w.fs, log := log, exitCode := 1, ending := ending }

/-- The function `downloadVideo`. -/
def downloadVideo (env : Env) (videoItag audioItag : Nat) (targetBitrate : Option String)
    (outputPath : Option JsString) : JobResult :=
  let tempDir := tempDirOf env
  let w : World := { fs := mkdirSync env.fs tempDir, log := [] }
  let r := downloadVideoBody env videoItag audioItag targetBitrate outputPath tempDir w
  concludeJob tempDir r.1 r.2

/-- The function `downloadAudioOnly`. -/
def downloadAudioOnly (env : Env) (outputPath : Option JsString) : JobResult :=
  let tempDir := tempDirOf env
  let w : World := { fs := mkdirSync env.fs tempDir, log := [] }
  let r := downloadAudioOnlyBody env outputPath tempDir w
  concludeJob tempDir r.1 r.2

/-! ## Sample inputs -/

/-- A video-only descriptor. -/
def sampleVideo (itag : Nat) : RawFormat :=
  { itag := itag, hasVideo := true, hasAudio := false, container := "mp4",
    contentLength := some "1000", audioBitrate := none }

/-- An audio-only descriptor. -/
def sampleAudio (itag bitrate : Nat) : RawFormat :=
  { itag := itag, hasVideo := false, hasAudio := true, container := "m4a",
    contentLength := some "500", audioBitrate := some bitrate }

/-- A catalog answer with two video-only formats of rank 1080, the itag 299 listed
before the itag 137, and one audio-only format. -/
def sampleInfo : RawInfo :=
  { title := js "a b", formats := [sampleVideo 299, sampleVideo 137, sampleAudio 140 128] }

/-- A catalog answer without any audio-only format. -/
def videoOnlyInfo : RawInfo :=
  { title := js "clip", formats := [sampleVideo 137] }

/-- An environment in which every collaborator succeeds. -/
def sampleEnv (catalog : RawInfo) : Env :=
  { tmpdir := js "/tmp", homedir := js "/home/u", uuid1 := js "u1", uuid2 := js "u2",
    uuid3 := js "u3", fs := [], catalog := .ok catalog, videoStream := .ok (),
    audioStream := .ok (), prompt := .ok "320k", ffmpeg := .ok () }

/-- An environment whose video stream fails. -/
def brokenStreamEnv : Env :=
  { sampleEnv sampleInfo with videoStream := .error "socket hang up" }

/-- The merge command of the video job on `sampleInfo` with the itags 137 and 140 and the
target bitrate `"320k"`. -/
def sampleMergeCommand : List FfmpegCall :=
  [ .input (js "/tmp/yt_download_u1/u2.mp4"), .input (js "/tmp/yt_download_u1/u3.m4a"),
    .outputOptions ["-c:v copy"], .audioFrequency 48000, .audioBitrate (some "320k"),
    .output (js "/home/u/Downloads/YouTube/a b.mp4"), .run ]

/-! ## Specification predicates -/

/-- What holds of the pair `(availableVideoItags, availableAudioItags)` once the formats
`seen` have gone through the `forEach` callback. -/
structure CollectInv (seen : List RawFormat) (acc : JsObj × JsObj) : Prop where
  videoAscend : acc.1.Pairwise (fun a b => a.1 < b.1)
  audioAscend : acc.2.Pairwise (fun a b => a.1 < b.1)
  videoFrom : ∀ p ∈ acc.1, itagLookup VIDEO_ITAGS p.1 = some p.2 ∧
    ∃ f ∈ seen, f.itag = p.1 ∧ isVideoOnlyAllowed f = true
  audioFrom : ∀ p ∈ acc.2, itagLookup AUDIO_ITAGS p.1 = some p.2 ∧
    ∃ f ∈ seen, f.itag = p.1 ∧ isAudioOnlyAllowed f = true
  videoSome : (∃ f ∈ seen, isVideoOnlyAllowed f = true) → acc.1 ≠ []
  audioSome : (∃ f ∈ seen, isAudioOnlyAllowed f = true) → acc.2 ≠ []

/-- The set `[A-Za-z0-9 _.-]` as the specification words it: ASCII letters, digits, the
space character, underscore, dot, hyphen. -/
def specKeeps (c : Nat) : Bool :=
  (decide (0x41 ≤ c) && decide (c ≤ 0x5A)) || (decide (0x61 ≤ c) && decide (c ≤ 0x7A)) ||
    (decide (0x30 ≤ c) && decide (c ≤ 0x39)) || c == 0x20 || c == 0x5F || c == 0x2E ||
    c == 0x2D

/-- Sanitization as the specification words it: every character outside the set above
becomes an underscore, every character inside it stays. -/
def sanitizeAsSpecified (filename : JsString) : JsString :=
  filename.map fun c => if specKeeps c then c else 0x5F

/-- The audio stream is re-encoded at 48000 Hz with the given bitrate argument. -/
def AudioReencoded (command : List FfmpegCall) (targetBitrate : Option String) : Prop :=
  FfmpegCall.audioFrequency 48000 ∈ command ∧ FfmpegCall.audioBitrate targetBitrate ∈ command ∧
    FfmpegCall.outputOptions ["-c:a copy"] ∉ command

/-- The audio stream is copied: no sample rate and no bitrate is set. -/
def AudioCopied (command : List FfmpegCall) : Prop :=
  FfmpegCall.outputOptions ["-c:a copy"] ∈ command ∧
    ∀ c ∈ command, (∀ hz, c ≠ FfmpegCall.audioFrequency hz) ∧ ∀ b, c ≠ FfmpegCall.audioBitrate b

/-! # Theorems -/

/-! ## The sort -/

theorem insertBy_perm {α : Type} (cmp : α → α → Int) (x : α) (l : List α) :
    (insertBy cmp x l).Perm (x :: l) := by
  induction l with
  | nil => exact List.Perm.refl _
  | cons y ys ih =>
    unfold insertBy
    split
    · exact List.Perm.refl _
    · exact (List.Perm.cons y ih).trans (List.Perm.swap x y ys)

theorem sortBy_perm {α : Type} (cmp : α → α → Int) (l : List α) : (sortBy cmp l).Perm l := by
  induction l with
  | nil => exact List.Perm.refl _
  | cons x xs ih =>
    unfold sortBy
    exact (insertBy_perm cmp x _).trans (List.Perm.cons x ih)

theorem mem_sortBy {α : Type} (cmp : α → α → Int) (l : List α) (a : α) :
    a ∈ sortBy cmp l ↔ a ∈ l :=
  (sortBy_perm cmp l).mem_iff

theorem sortBy_eq_nil {α : Type} (cmp : α → α → Int) (l : List α) :
    sortBy cmp l = [] ↔ l = [] := by
  constructor
  · intro h
    have hp := sortBy_perm cmp l
    rw [h] at hp
    exact List.Perm.eq_nil hp.symm
  · intro h
    subst h
    rfl

/-- Inserting an element whose secondary key is below all others keeps the list ordered
by rank, larger first, and by secondary key, smaller first, among equal ranks. -/
theorem insertBy_ranked {α : Type} (rank key : α → Nat) (cmp : α → α → Int)
    (hcmp : ∀ a b, cmp a b = (rank b : Int) - (rank a : Int)) (x : α) (l : List α)
    (hl : l.Pairwise (fun a b => rank b < rank a ∨ (rank a = rank b ∧ key a < key b)))
    (hx : ∀ y ∈ l, key x < key y) :
    (insertBy cmp x l).Pairwise
      (fun a b => rank b < rank a ∨ (rank a = rank b ∧ key a < key b)) := by
  induction l with
  | nil => simp [insertBy]
  | cons y ys ih =>
    rw [List.pairwise_cons] at hl
    unfold insertBy
    split
    · rename_i hle
      rw [hcmp] at hle
      have hyx : rank y ≤ rank x := by omega
      refine List.pairwise_cons.2 ⟨?_, List.pairwise_cons.2 hl⟩
      intro z hz
      have hkz : key x < key z := hx z hz
      have hzy : rank z ≤ rank y := by
        rcases List.mem_cons.1 hz with h | h
        · subst h; exact le_refl _
        · rcases hl.1 z h with h1 | h1
          · exact le_of_lt h1
          · exact le_of_eq h1.1.symm
      rcases Nat.lt_or_ge (rank z) (rank x) with h | h
      · exact Or.inl h
      · exact Or.inr ⟨by omega, hkz⟩
    · rename_i hgt
      rw [hcmp] at hgt
      have hxy : rank x < rank y := by omega
      refine List.pairwise_cons.2 ⟨?_, ih hl.2 (fun z hz => hx z (List.mem_cons_of_mem _ hz))⟩
      intro z hz
      rcases List.mem_cons.1 ((insertBy_perm cmp x ys).mem_iff.1 hz) with h | h
      · subst h; exact Or.inl hxy
      · exact hl.1 z h

/-- The stable sort of a list whose secondary keys ascend is ordered by rank, larger
first, and among equal ranks by secondary key, smaller first. -/
theorem sortBy_ranked {α : Type} (rank key : α → Nat) (cmp : α → α → Int)
    (hcmp : ∀ a b, cmp a b = (rank b : Int) - (rank a : Int)) (l : List α)
    (hl : l.Pairwise (fun a b => key a < key b)) :
    (sortBy cmp l).Pairwise
      (fun a b => rank b < rank a ∨ (rank a = rank b ∧ key a < key b)) := by
  induction l with
  | nil => simp [sortBy]
  | cons x xs ih =>
    rw [List.pairwise_cons] at hl
    unfold sortBy
    exact insertBy_ranked rank key cmp hcmp x _ (ih hl.2)
      (fun y hy => hl.1 y ((mem_sortBy cmp xs y).1 hy))

/-! ## Objects with integer keys -/

theorem mem_objSet (o : JsObj) (k : Nat) (v : String) (p : Nat × String)
    (h : p ∈ objSet o k v) : p = (k, v) ∨ p ∈ o := by
  induction o with
  | nil => simpa [objSet] using h
  | cons q rest ih =>
    obtain ⟨k', v'⟩ := q
    unfold objSet at h
    split at h
    · rcases List.mem_cons.1 h with h | h
      · exact Or.inl h
      · exact Or.inr h
    · split at h
      · rcases List.mem_cons.1 h with h | h
        · exact Or.inl h
        · exact Or.inr (List.mem_cons_of_mem _ h)
      · rcases List.mem_cons.1 h with h | h
        · exact Or.inr (h ▸ List.mem_cons_self _ _)
        · rcases ih h with h | h
          · exact Or.inl h
          · exact Or.inr (List.mem_cons_of_mem _ h)

theorem objSet_ne_nil (o : JsObj) (k : Nat) (v : String) : objSet o k v ≠ [] := by
  cases o with
  | nil => simp [objSet]
  | cons q rest =>
    obtain ⟨k', v'⟩ := q
    unfold objSet
    split
    · simp
    · split <;> simp

theorem objSet_keys_ascend (o : JsObj) (k : Nat) (v : String)
    (h : o.Pairwise (fun a b => a.1 < b.1)) :
    (objSet o k v).Pairwise (fun a b => a.1 < b.1) := by
  induction o with
  | nil => simp [objSet]
  | cons q rest ih =>
    obtain ⟨k', v'⟩ := q
    rw [List.pairwise_cons] at h
    unfold objSet
    split
    · rename_i hlt
      refine List.pairwise_cons.2 ⟨?_, List.pairwise_cons.2 h⟩
      intro z hz
      rcases List.mem_cons.1 hz with hz | hz
      · subst hz; exact hlt
      · exact lt_trans hlt (h.1 z hz)
    · split
      · rename_i heq
        subst heq
        exact List.pairwise_cons.2 ⟨h.1, h.2⟩
      · rename_i hnlt hne
        refine List.pairwise_cons.2 ⟨?_, ih h.2⟩
        intro z hz
        rcases mem_objSet rest k v z hz with hz | hz
        · subst hz
          show k' < k
          omega
        · exact h.1 z hz

/-! ## The forEach pass -/

theorem truthyStr_some (o : Option String) (h : truthyStr o = true) :
    ∃ q, o = some q ∧ q ≠ "" := by
  cases o with
  | none => simp [truthyStr] at h
  | some q => exact ⟨q, rfl, by simpa [truthyStr] using h⟩

theorem video_audio_exclusive (f : RawFormat) (h : isAudioOnlyAllowed f = true) :
    isVideoOnlyAllowed f = false := by
  unfold isAudioOnlyAllowed at h
  unfold isVideoOnlyAllowed
  cases hv : f.hasVideo <;> simp_all

theorem collectStep_inv (seen : List RawFormat) (acc : JsObj × JsObj) (f : RawFormat)
    (h : CollectInv seen acc) : CollectInv (seen ++ [f]) (collectStep acc f) := by
  have hmono : ∀ g, g ∈ seen → g ∈ seen ++ [f] := fun g hg => List.mem_append_left _ hg
  have hlast : f ∈ seen ++ [f] := List.mem_append_right _ (List.mem_singleton_self f)
  unfold collectStep
  by_cases hv : isVideoOnlyAllowed f = true
  · obtain ⟨q, hq, _⟩ := truthyStr_some _ (by
      unfold isVideoOnlyAllowed at hv
      simp only [Bool.and_eq_true] at hv
      exact hv.2)
    rw [if_pos hv, hq]
    refine ⟨objSet_keys_ascend _ _ _ h.videoAscend, h.audioAscend, ?_, ?_, ?_, ?_⟩
    · intro p hp
      rcases mem_objSet _ _ _ _ hp with hp | hp
      · subst hp
        exact ⟨hq, f, hlast, rfl, hv⟩
      · obtain ⟨h1, g, hg, h2, h3⟩ := h.videoFrom p hp
        exact ⟨h1, g, hmono g hg, h2, h3⟩
    · intro p hp
      obtain ⟨h1, g, hg, h2, h3⟩ := h.audioFrom p hp
      exact ⟨h1, g, hmono g hg, h2, h3⟩
    · intro _
      exact objSet_ne_nil _ _ _
    · rintro ⟨g, hg, hga⟩
      rcases List.mem_append.1 hg with hg | hg
      · exact h.audioSome ⟨g, hg, hga⟩
      · rw [List.mem_singleton.1 hg] at hga
        rw [video_audio_exclusive f hga] at hv
        exact absurd hv (by simp)
  · rw [if_neg hv]
    by_cases ha : isAudioOnlyAllowed f = true
    · obtain ⟨q, hq, _⟩ := truthyStr_some _ (by
        unfold isAudioOnlyAllowed at ha
        simp only [Bool.and_eq_true] at ha
        exact ha.2)
      rw [if_pos ha, hq]
      refine ⟨h.videoAscend, objSet_keys_ascend _ _ _ h.audioAscend, ?_, ?_, ?_, ?_⟩
      · intro p hp
        obtain ⟨h1, g, hg, h2, h3⟩ := h.videoFrom p hp
        exact ⟨h1, g, hmono g hg, h2, h3⟩
      · intro p hp
        rcases mem_objSet _ _ _ _ hp with hp | hp
        · subst hp
          exact ⟨hq, f, hlast, rfl, ha⟩
        · obtain ⟨h1, g, hg, h2, h3⟩ := h.audioFrom p hp
          exact ⟨h1, g, hmono g hg, h2, h3⟩
      · rintro ⟨g, hg, hgv⟩
        rcases List.mem_append.1 hg with hg | hg
        · exact h.videoSome ⟨g, hg, hgv⟩
        · rw [List.mem_singleton.1 hg] at hgv
          exact absurd hgv hv
      · intro _
        exact objSet_ne_nil _ _ _
    · rw [if_neg ha]
      refine ⟨h.videoAscend, h.audioAscend, ?_, ?_, ?_, ?_⟩
      · intro p hp
        obtain ⟨h1, g, hg, h2, h3⟩ := h.videoFrom p hp
        exact ⟨h1, g, hmono g hg, h2, h3⟩
      · intro p hp
        obtain ⟨h1, g, hg, h2, h3⟩ := h.audioFrom p hp
        exact ⟨h1, g, hmono g hg, h2, h3⟩
      · rintro ⟨g, hg, hgv⟩
        rcases List.mem_append.1 hg with hg | hg
        · exact h.videoSome ⟨g, hg, hgv⟩
        · rw [List.mem_singleton.1 hg] at hgv
          exact absurd hgv hv
      · rintro ⟨g, hg, hga⟩
        rcases List.mem_append.1 hg with hg | hg
        · exact h.audioSome ⟨g, hg, hga⟩
        · rw [List.mem_singleton.1 hg] at hga
          exact absurd hga ha

theorem foldl_collect_inv (rest seen : List RawFormat) (acc : JsObj × JsObj)
    (h : CollectInv seen acc) : CollectInv (seen ++ rest) (rest.foldl collectStep acc) := by
  induction rest generalizing seen acc with
  | nil => simpa using h
  | cons f rest ih =>
    have := ih (seen ++ [f]) (collectStep acc f) (collectStep_inv seen acc f h)
    simpa [List.append_assoc] using this

theorem collectItags_inv (formats : List RawFormat) :
    CollectInv formats (collectItags formats) := by
  have h0 : CollectInv [] (([], []) : JsObj × JsObj) :=
    ⟨List.Pairwise.nil, List.Pairwise.nil, by simp, by simp, by simp, by simp⟩
  simpa [collectItags] using foldl_collect_inv formats [] _ h0

/-! ## The map over the entries -/

theorem lookup_some_mem (l : List (Nat × String)) (k : Nat) (v : String)
    (h : l.lookup k = some v) : (k, v) ∈ l := by
  induction l with
  | nil => simp at h
  | cons p l ih =>
    obtain ⟨k', v'⟩ := p
    by_cases hk : k = k'
    · subst hk
      simp [List.lookup] at h
      subst h
      exact List.mem_cons_self _ _
    · have : (k == k') = false := by simpa using hk
      simp [List.lookup, this] at h
      exact List.mem_cons_of_mem _ (ih h)

theorem video_labels_ranked :
    ∀ kv ∈ VIDEO_ITAGS, (qualityRank kv.2).toBool = true := by decide

theorem audio_labels_ranked :
    ∀ kv ∈ AUDIO_ITAGS, (qualityRank kv.2).toBool = true := by decide

theorem qualityRank_ok_of_toBool (q : String) (h : (qualityRank q).toBool = true) :
    ∃ r, qualityRank q = .ok r := by
  cases hq : qualityRank q with
  | error e => rw [hq] at h; simp [Except.toBool] at h
  | ok r => exact ⟨r, rfl⟩

theorem videoEntry_ok (kv : Nat × String) (h : itagLookup VIDEO_ITAGS kv.1 = some kv.2) :
    ∃ e, videoEntry kv = .ok e := by
  obtain ⟨r, hr⟩ := qualityRank_ok_of_toBool kv.2
    (video_labels_ranked kv (lookup_some_mem _ _ _ h))
  refine ⟨{ itag := kv.1, quality := kv.2, resolution := r }, ?_⟩
  simp [videoEntry, hr]

theorem audioEntry_ok (kv : Nat × String) (h : itagLookup AUDIO_ITAGS kv.1 = some kv.2) :
    ∃ e, audioEntry kv = .ok e := by
  obtain ⟨r, hr⟩ := qualityRank_ok_of_toBool kv.2
    (audio_labels_ranked kv (lookup_some_mem _ _ _ h))
  refine ⟨{ itag := kv.1, quality := kv.2, bitrate := r }, ?_⟩
  simp [audioEntry, hr]

theorem videoEntry_fields (kv : Nat × String) (e : VideoEntry) (h : videoEntry kv = .ok e) :
    e.itag = kv.1 ∧ e.quality = kv.2 := by
  unfold videoEntry at h
  split at h
  · simp at h
  · simp only [Except.ok.injEq] at h
    subst h
    exact ⟨rfl, rfl⟩

theorem audioEntry_fields (kv : Nat × String) (e : AudioEntry) (h : audioEntry kv = .ok e) :
    e.itag = kv.1 ∧ e.quality = kv.2 := by
  unfold audioEntry at h
  split at h
  · simp at h
  · simp only [Except.ok.injEq] at h
    subst h
    exact ⟨rfl, rfl⟩

theorem mapThrowing_ok {α β : Type} (f : α → Except String β) (l : List α)
    (h : ∀ x ∈ l, ∃ y, f x = .ok y) : ∃ ys, mapThrowing f l = .ok ys := by
  induction l with
  | nil => exact ⟨[], rfl⟩
  | cons x xs ih =>
    obtain ⟨y, hy⟩ := h x (List.mem_cons_self _ _)
    obtain ⟨ys, hys⟩ := ih (fun z hz => h z (List.mem_cons_of_mem _ hz))
    exact ⟨y :: ys, by simp [mapThrowing, hy, hys]⟩

theorem mapThrowing_forall₂ {α β : Type} (f : α → Except String β) (l : List α)
    (ys : List β) (h : mapThrowing f l = .ok ys) :
    List.Forall₂ (fun x y => f x = .ok y) l ys := by
  induction l generalizing ys with
  | nil =>
    simp only [mapThrowing, Except.ok.injEq] at h
    subst h
    exact List.Forall₂.nil
  | cons x xs ih =>
    unfold mapThrowing at h
    split at h
    · simp at h
    · rename_i y hy
      split at h
      · simp at h
      · rename_i zs hzs
        simp only [Except.ok.injEq] at h
        subst h
        exact List.Forall₂.cons hy (ih zs hzs)

theorem forall₂_entries_nil {α β : Type} (r : α → β → Prop) (l : List α) (ys : List β)
    (h : List.Forall₂ r l ys) : ys = [] ↔ l = [] := by
  cases h with
  | nil => simp
  | cons _ _ => simp

theorem forall₂_entries_mem {α β : Type} (r : α → β → Prop) (l : List α) (ys : List β)
    (h : List.Forall₂ r l ys) (y : β) (hy : y ∈ ys) : ∃ x ∈ l, r x y := by
  induction h with
  | nil => simp at hy
  | cons hxy _ ih =>
    rcases List.mem_cons.1 hy with hy | hy
    · subst hy
      exact ⟨_, List.mem_cons_self _ _, hxy⟩
    · obtain ⟨x, hx, hr⟩ := ih hy
      exact ⟨x, List.mem_cons_of_mem _ hx, hr⟩

theorem forall₂_entries_map {α β : Type} (r : α → β → Prop) (p : β → Nat) (q : α → Nat)
    (hpq : ∀ x y, r x y → p y = q x) (l : List α) (ys : List β)
    (h : List.Forall₂ r l ys) : ys.map p = l.map q := by
  induction h with
  | nil => rfl
  | cons hxy _ ih => simp [hpq _ _ hxy, ih]

/-! ## getVideoInfo -/

/-- The shape of every run of `getVideoInfo` on a catalog answer: both maps succeed, and
the two length tests decide between the two errors and the return. -/
theorem getVideoInfo_shape (info : RawInfo) :
    ∃ ves aes,
      mapThrowing videoEntry (collectItags info.formats).1 = .ok ves ∧
      mapThrowing audioEntry (collectItags info.formats).2 = .ok aes ∧
      getVideoInfo (.ok info) =
        (if ves = [] then .exited 1 "No compatible video formats found"
         else if aes = [] then .exited 1 "No compatible audio formats found"
         else .returned
          { title := info.title
            formats := info.formats
            availableVideoFormats := sortBy videoCmp ves
            availableAudioFormats := sortBy audioCmp aes }) := by
  have hinv := collectItags_inv info.formats
  obtain ⟨ves, hves⟩ := mapThrowing_ok videoEntry (collectItags info.formats).1
    (fun x hx => videoEntry_ok x (hinv.videoFrom x hx).1)
  obtain ⟨aes, haes⟩ := mapThrowing_ok audioEntry (collectItags info.formats).2
    (fun x hx => audioEntry_ok x (hinv.audioFrom x hx).1)
  refine ⟨ves, aes, hves, haes, ?_⟩
  simp only [getVideoInfo, hves, haes, List.length_eq_zero, sortBy_eq_nil]

theorem allowed_video_keys :
    ∀ kv ∈ VIDEO_ITAGS, truthyStr (itagLookup VIDEO_ITAGS kv.1) = true := by decide

theorem allowed_audio_keys :
    ∀ kv ∈ AUDIO_ITAGS, truthyStr (itagLookup AUDIO_ITAGS kv.1) = true := by decide

theorem isVideoOnlyAllowed_iff (f : RawFormat) :
    isVideoOnlyAllowed f = true ↔
      f.hasVideo = true ∧ f.hasAudio = false ∧ f.itag ∈ VIDEO_ITAGS.map Prod.fst := by
  unfold isVideoOnlyAllowed
  simp only [Bool.and_eq_true, Bool.not_eq_true', and_assoc]
  refine and_congr_right fun _ => and_congr_right fun _ => ?_
  constructor
  · intro h
    obtain ⟨q, hq, _⟩ := truthyStr_some _ h
    exact List.mem_map.2 ⟨(f.itag, q), lookup_some_mem _ _ _ hq, rfl⟩
  · intro h
    obtain ⟨kv, hkv, hk⟩ := List.mem_map.1 h
    rw [← hk]
    exact allowed_video_keys kv hkv

theorem isAudioOnlyAllowed_iff (f : RawFormat) :
    isAudioOnlyAllowed f = true ↔
      f.hasAudio = true ∧ f.hasVideo = false ∧ f.itag ∈ AUDIO_ITAGS.map Prod.fst := by
  unfold isAudioOnlyAllowed
  simp only [Bool.and_eq_true, Bool.not_eq_true', and_assoc]
  rw [and_left_comm]
  refine and_congr_right fun _ => and_congr_right fun _ => ?_
  constructor
  · intro h
    obtain ⟨q, hq, _⟩ := truthyStr_some _ h
    exact List.mem_map.2 ⟨(f.itag, q), lookup_some_mem _ _ _ hq, rfl⟩
  · intro h
    obtain ⟨kv, hkv, hk⟩ := List.mem_map.1 h
    rw [← hk]
    exact allowed_audio_keys kv hkv

/-- The mapped video entries are empty exactly when no format is an allow-listed
video-only format. -/
theorem video_entries_nil_iff (info : RawInfo) (ves : List VideoEntry)
    (h : mapThrowing videoEntry (collectItags info.formats).1 = .ok ves) :
    ves = [] ↔ ¬ ∃ f ∈ info.formats, isVideoOnlyAllowed f = true := by
  have hinv := collectItags_inv info.formats
  rw [forall₂_entries_nil _ _ _ (mapThrowing_forall₂ _ _ _ h)]
  constructor
  · intro hnil hex
    exact hinv.videoSome hex hnil
  · intro hno
    by_contra hne
    obtain ⟨p, hp⟩ := List.exists_mem_of_ne_nil _ hne
    obtain ⟨_, f, hf, _, hfa⟩ := hinv.videoFrom p hp
    exact hno ⟨f, hf, hfa⟩

/-- The mapped audio entries are empty exactly when no format is an allow-listed
audio-only format. -/
theorem audio_entries_nil_iff (info : RawInfo) (aes : List AudioEntry)
    (h : mapThrowing audioEntry (collectItags info.formats).2 = .ok aes) :
    aes = [] ↔ ¬ ∃ f ∈ info.formats, isAudioOnlyAllowed f = true := by
  have hinv := collectItags_inv info.formats
  rw [forall₂_entries_nil _ _ _ (mapThrowing_forall₂ _ _ _ h)]
  constructor
  · intro hnil hex
    exact hinv.audioSome hex hnil
  · intro hno
    by_contra hne
    obtain ⟨p, hp⟩ := List.exists_mem_of_ne_nil _ hne
    obtain ⟨_, f, hf, _, hfa⟩ := hinv.audioFrom p hp
    exact hno ⟨f, hf, hfa⟩

/-- The sorted video list is ordered by resolution, larger first, and by itag, smaller
first, among equal resolutions. -/
theorem video_sorted_ranked (info : RawInfo) (ves : List VideoEntry)
    (h : mapThrowing videoEntry (collectItags info.formats).1 = .ok ves) :
    (sortBy videoCmp ves).Pairwise
      (fun a b => b.resolution < a.resolution ∨
        (a.resolution = b.resolution ∧ a.itag < b.itag)) := by
  have hinv := collectItags_inv info.formats
  refine sortBy_ranked (fun e : VideoEntry => e.resolution) (fun e : VideoEntry => e.itag)
    videoCmp (fun _ _ => rfl) ves ?_
  have hmap := forall₂_entries_map _ (fun e : VideoEntry => e.itag) (fun kv => kv.1)
    (fun x y hxy => (videoEntry_fields x y hxy).1) _ _ (mapThrowing_forall₂ _ _ _ h)
  have h1 : (ves.map (fun e : VideoEntry => e.itag)).Pairwise (· < ·) := by
    rw [hmap]
    exact List.pairwise_map.2 hinv.videoAscend
  exact List.pairwise_map.1 h1

/-- The sorted audio list is ordered by bitrate, larger first, and by itag, smaller
first, among equal bitrates. -/
theorem audio_sorted_ranked (info : RawInfo) (aes : List AudioEntry)
    (h : mapThrowing audioEntry (collectItags info.formats).2 = .ok aes) :
    (sortBy audioCmp aes).Pairwise
      (fun a b => b.bitrate < a.bitrate ∨ (a.bitrate = b.bitrate ∧ a.itag < b.itag)) := by
  have hinv := collectItags_inv info.formats
  refine sortBy_ranked (fun e : AudioEntry => e.bitrate) (fun e : AudioEntry => e.itag)
    audioCmp (fun _ _ => rfl) aes ?_
  have hmap := forall₂_entries_map _ (fun e : AudioEntry => e.itag) (fun kv => kv.1)
    (fun x y hxy => (audioEntry_fields x y hxy).1) _ _ (mapThrowing_forall₂ _ _ _ h)
  have h1 : (aes.map (fun e : AudioEntry => e.itag)).Pairwise (· < ·) := by
    rw [hmap]
    exact List.pairwise_map.2 hinv.audioAscend
  exact List.pairwise_map.1 h1

/-- Where an element of the sorted video list comes from. -/
theorem video_sorted_origin (info : RawInfo) (ves : List VideoEntry)
    (h : mapThrowing videoEntry (collectItags info.formats).1 = .ok ves)
    (e : VideoEntry) (he : e ∈ sortBy videoCmp ves) :
    (e.itag, e.quality) ∈ VIDEO_ITAGS ∧ qualityRank e.quality = .ok e.resolution ∧
      ∃ f ∈ info.formats, f.itag = e.itag ∧ f.hasVideo = true ∧ f.hasAudio = false := by
  have hinv := collectItags_inv info.formats
  obtain ⟨kv, hkv, hkve⟩ := forall₂_entries_mem _ _ _ (mapThrowing_forall₂ _ _ _ h) e
    ((mem_sortBy _ _ _).1 he)
  obtain ⟨hlook, f, hf, hfi, hfa⟩ := hinv.videoFrom kv hkv
  obtain ⟨h1, h2⟩ := videoEntry_fields kv e hkve
  have h3 : qualityRank e.quality = .ok e.resolution := by
    unfold videoEntry at hkve
    split at hkve
    · simp at hkve
    · rename_i r hr
      simp only [Except.ok.injEq] at hkve
      subst hkve
      exact hr
  have hfa2 := (isVideoOnlyAllowed_iff f).1 hfa
  refine ⟨?_, h3, f, hf, by rw [h1]; exact hfi, hfa2.1, hfa2.2.1⟩
  rw [h1, h2]
  exact lookup_some_mem _ _ _ hlook

/-- Where an element of the sorted audio list comes from. -/
theorem audio_sorted_origin (info : RawInfo) (aes : List AudioEntry)
    (h : mapThrowing audioEntry (collectItags info.formats).2 = .ok aes)
    (e : AudioEntry) (he : e ∈ sortBy audioCmp aes) :
    (e.itag, e.quality) ∈ AUDIO_ITAGS ∧ qualityRank e.quality = .ok e.bitrate ∧
      ∃ f ∈ info.formats, f.itag = e.itag ∧ f.hasAudio = true ∧ f.hasVideo = false := by
  have hinv := collectItags_inv info.formats
  obtain ⟨kv, hkv, hkve⟩ := forall₂_entries_mem _ _ _ (mapThrowing_forall₂ _ _ _ h) e
    ((mem_sortBy _ _ _).1 he)
  obtain ⟨hlook, f, hf, hfi, hfa⟩ := hinv.audioFrom kv hkv
  obtain ⟨h1, h2⟩ := audioEntry_fields kv e hkve
  have h3 : qualityRank e.quality = .ok e.bitrate := by
    unfold audioEntry at hkve
    split at hkve
    · simp at hkve
    · rename_i r hr
      simp only [Except.ok.injEq] at hkve
      subst hkve
      exact hr
  have hfa2 := (isAudioOnlyAllowed_iff f).1 hfa
  refine ⟨?_, h3, f, hf, by rw [h1]; exact hfi, hfa2.1, hfa2.2.1⟩
  rw [h1, h2]
  exact lookup_some_mem _ _ _ hlook

/-! ## Claims about the format filter -/

/-- C4: for every raw format list with at least one allow-listed video-only format and at
least one allow-listed audio-only format, `getVideoInfo` returns; both ranked lists are
non-empty; the video list is in non-increasing order of resolution and the audio list in
non-increasing order of bitrate; and every returned entry carries an allow-listed itag
with its label, has the leading integer of that label as rank, and is the itag of a
format of the matching kind in the input. -/
theorem getVideoInfo_returns_ranked_lists (info : RawInfo)
    (hv : ∃ f ∈ info.formats,
      f.hasVideo = true ∧ f.hasAudio = false ∧ f.itag ∈ VIDEO_ITAGS.map Prod.fst)
    (ha : ∃ f ∈ info.formats,
      f.hasAudio = true ∧ f.hasVideo = false ∧ f.itag ∈ AUDIO_ITAGS.map Prod.fst) :
    ∃ m, getVideoInfo (.ok info) = .returned m ∧
      m.availableVideoFormats ≠ [] ∧ m.availableAudioFormats ≠ [] ∧
      m.availableVideoFormats.Pairwise (fun a b => b.resolution ≤ a.resolution) ∧
      m.availableAudioFormats.Pairwise (fun a b => b.bitrate ≤ a.bitrate) ∧
      (∀ e ∈ m.availableVideoFormats,
        (e.itag, e.quality) ∈ VIDEO_ITAGS ∧ qualityRank e.quality = .ok e.resolution ∧
        ∃ f ∈ info.formats, f.itag = e.itag ∧ f.hasVideo = true ∧ f.hasAudio = false) ∧
      (∀ e ∈ m.availableAudioFormats,
        (e.itag, e.quality) ∈ AUDIO_ITAGS ∧ qualityRank e.quality = .ok e.bitrate ∧
        ∃ f ∈ info.formats, f.itag = e.itag ∧ f.hasAudio = true ∧ f.hasVideo = false) := by
  obtain ⟨ves, aes, hves, haes, hshape⟩ := getVideoInfo_shape info
  have hvne : ves ≠ [] := by
    intro h
    obtain ⟨f, hf, hfa⟩ := hv
    exact (video_entries_nil_iff info ves hves).1 h ⟨f, hf, (isVideoOnlyAllowed_iff f).2 hfa⟩
  have hane : aes ≠ [] := by
    intro h
    obtain ⟨f, hf, hfa⟩ := ha
    exact (audio_entries_nil_iff info aes haes).1 h ⟨f, hf, (isAudioOnlyAllowed_iff f).2 hfa⟩
  rw [if_neg hvne, if_neg hane] at hshape
  refine ⟨_, hshape, ?_, ?_, ?_, ?_, ?_, ?_⟩
  · exact fun h => hvne ((sortBy_eq_nil _ _).1 h)
  · exact fun h => hane ((sortBy_eq_nil _ _).1 h)
  · refine (video_sorted_ranked info ves hves).imp ?_
    intro a b hab
    rcases hab with h | h
    · exact le_of_lt h
    · exact le_of_eq h.1.symm
  · refine (audio_sorted_ranked info aes haes).imp ?_
    intro a b hab
    rcases hab with h | h
    · exact le_of_lt h
    · exact le_of_eq h.1.symm
  · exact fun e he => video_sorted_origin info ves hves e he
  · exact fun e he => audio_sorted_origin info aes haes e he

/-- C4, at a catalog with the itags 299 and 137 (video-only) and 140 (audio-only). -/
theorem getVideoInfo_returns_ranked_lists_witness :
    ∃ m, getVideoInfo (.ok sampleInfo) = .returned m ∧
      m.availableVideoFormats ≠ [] ∧ m.availableAudioFormats ≠ [] ∧
      m.availableVideoFormats.Pairwise (fun a b => b.resolution ≤ a.resolution) ∧
      m.availableAudioFormats.Pairwise (fun a b => b.bitrate ≤ a.bitrate) ∧
      (∀ e ∈ m.availableVideoFormats,
        (e.itag, e.quality) ∈ VIDEO_ITAGS ∧ qualityRank e.quality = .ok e.resolution ∧
        ∃ f ∈ sampleInfo.formats, f.itag = e.itag ∧ f.hasVideo = true ∧ f.hasAudio = false) ∧
      (∀ e ∈ m.availableAudioFormats,
        (e.itag, e.quality) ∈ AUDIO_ITAGS ∧ qualityRank e.quality = .ok e.bitrate ∧
        ∃ f ∈ sampleInfo.formats, f.itag = e.itag ∧ f.hasAudio = true ∧ f.hasVideo = false) :=
  getVideoInfo_returns_ranked_lists sampleInfo
    ⟨sampleVideo 299, by decide, by decide, by decide, by decide⟩
    ⟨sampleAudio 140 128, by decide, by decide, by decide, by decide⟩

/-- C5: for every raw format list, if no format is an allow-listed video-only format the
call ends with the error "No compatible video formats found"; if there is one but no
format is an allow-listed audio-only format it ends with "No compatible audio formats
found"; and a call that returns never returns an empty ranked list. -/
theorem getVideoInfo_fails_without_either_kind (info : RawInfo) :
    ((¬ ∃ f ∈ info.formats,
        f.hasVideo = true ∧ f.hasAudio = false ∧ f.itag ∈ VIDEO_ITAGS.map Prod.fst) →
      getVideoInfo (.ok info) = .exited 1 "No compatible video formats found") ∧
    ((∃ f ∈ info.formats,
        f.hasVideo = true ∧ f.hasAudio = false ∧ f.itag ∈ VIDEO_ITAGS.map Prod.fst) →
      (¬ ∃ f ∈ info.formats,
        f.hasAudio = true ∧ f.hasVideo = false ∧ f.itag ∈ AUDIO_ITAGS.map Prod.fst) →
      getVideoInfo (.ok info) = .exited 1 "No compatible audio formats found") ∧
    (∀ m, getVideoInfo (.ok info) = .returned m →
      m.availableVideoFormats ≠ [] ∧ m.availableAudioFormats ≠ []) := by
  obtain ⟨ves, aes, hves, haes, hshape⟩ := getVideoInfo_shape info
  have hvi := video_entries_nil_iff info ves hves
  have hai := audio_entries_nil_iff info aes haes
  refine ⟨?_, ?_, ?_⟩
  · intro hno
    have : ves = [] := hvi.2 (fun ⟨f, hf, hfa⟩ => hno ⟨f, hf, (isVideoOnlyAllowed_iff f).1 hfa⟩)
    rw [hshape, if_pos this]
  · intro hyes hno
    have h1 : ves ≠ [] := by
      intro h
      obtain ⟨f, hf, hfa⟩ := hyes
      exact hvi.1 h ⟨f, hf, (isVideoOnlyAllowed_iff f).2 hfa⟩
    have h2 : aes = [] := hai.2 (fun ⟨f, hf, hfa⟩ => hno ⟨f, hf, (isAudioOnlyAllowed_iff f).1 hfa⟩)
    rw [hshape, if_neg h1, if_pos h2]
  · intro m hm
    rw [hshape] at hm
    by_cases h1 : ves = []
    · rw [if_pos h1] at hm
      exact absurd hm (by simp)
    · rw [if_neg h1] at hm
      by_cases h2 : aes = []
      · rw [if_pos h2] at hm
        exact absurd hm (by simp)
      · rw [if_neg h2] at hm
        simp only [InfoOutcome.returned.injEq] at hm
        subst hm
        exact ⟨fun h => h1 ((sortBy_eq_nil _ _).1 h), fun h => h2 ((sortBy_eq_nil _ _).1 h)⟩

/-- C5, at a catalog whose only format is video-only: the audio error. -/
theorem getVideoInfo_fails_without_either_kind_witness :
    getVideoInfo (.ok videoOnlyInfo) = .exited 1 "No compatible audio formats found" :=
  (getVideoInfo_fails_without_either_kind videoOnlyInfo).2.1
    ⟨sampleVideo 137, by decide, by decide, by decide, by decide⟩ (by decide)

/-- C6, refuted as stated: the catalog lists the itag 299 before the itag 137, both of
rank 1080, and the returned list has 137 before 299. -/
theorem tie_break_not_catalog_order :
    sampleInfo.formats.map (fun f => f.itag) = [299, 137, 140] ∧
    getVideoInfo (.ok sampleInfo) = .returned
      { title := sampleInfo.title
        formats := sampleInfo.formats
        availableVideoFormats :=
          [ { itag := 137, quality := "1080p (mp4/avc1)", resolution := 1080 },
            { itag := 299, quality := "1080p60 (mp4/avc1)", resolution := 1080 } ]
        availableAudioFormats :=
          [ { itag := 140, quality := "128kbps (m4a/mp4a)", bitrate := 128 } ] } := by
  decide

/-- C6, amended: in the ranked lists `getVideoInfo` returns, of two entries with equal
numeric rank the one with the smaller itag comes first, whatever their order in the
catalog; no itag occurs twice. -/
theorem tie_break_by_ascending_itag (info : RawInfo) (m : MediaInfo)
    (h : getVideoInfo (.ok info) = .returned m) :
    m.availableVideoFormats.Pairwise
      (fun a b => a.resolution = b.resolution → a.itag < b.itag) ∧
    m.availableAudioFormats.Pairwise
      (fun a b => a.bitrate = b.bitrate → a.itag < b.itag) := by
  obtain ⟨ves, aes, hves, haes, hshape⟩ := getVideoInfo_shape info
  rw [hshape] at h
  by_cases h1 : ves = []
  · rw [if_pos h1] at h
    exact absurd h (by simp)
  · rw [if_neg h1] at h
    by_cases h2 : aes = []
    · rw [if_pos h2] at h
      exact absurd h (by simp)
    · rw [if_neg h2] at h
      simp only [InfoOutcome.returned.injEq] at h
      subst h
      constructor
      · refine (video_sorted_ranked info ves hves).imp ?_
        intro a b hab heq
        rcases hab with hlt | hlt
        · omega
        · exact hlt.2
      · refine (audio_sorted_ranked info aes haes).imp ?_
        intro a b hab heq
        rcases hab with hlt | hlt
        · omega
        · exact hlt.2

/-- C6 amended, at the catalog that lists 299 before 137. -/
theorem tie_break_by_ascending_itag_witness :
    List.Pairwise (fun a b : VideoEntry => a.resolution = b.resolution → a.itag < b.itag)
      [ { itag := 137, quality := "1080p (mp4/avc1)", resolution := 1080 },
        { itag := 299, quality := "1080p60 (mp4/avc1)", resolution := 1080 } ] :=
  (tie_break_by_ascending_itag sampleInfo
    { title := sampleInfo.title
      formats := sampleInfo.formats
      availableVideoFormats :=
        [ { itag := 137, quality := "1080p (mp4/avc1)", resolution := 1080 },
          { itag := 299, quality := "1080p60 (mp4/avc1)", resolution := 1080 } ]
      availableAudioFormats :=
        [ { itag := 140, quality := "128kbps (m4a/mp4a)", bitrate := 128 } ] }
    (by decide)).1

/-! ## sanitizeFilename -/

/-- Which code units the pattern of `sanitizeFilename` leaves alone. -/
theorem sanitizeMatches_eq_false_iff (c : Nat) :
    sanitizeMatches c = false ↔
      ((0x41 ≤ c ∧ c ≤ 0x5A) ∨ (0x61 ≤ c ∧ c ≤ 0x7A) ∨ (0x30 ≤ c ∧ c ≤ 0x39) ∨
        c ∈ whiteSpaceUnits ∨ c = 0x2D ∨ c = 0x5F ∨ c = 0x2E) := by
  unfold sanitizeMatches
  simp only [Bool.not_eq_false', List.any_eq_true, beq_iff_eq, sanitizeCharSet,
    List.mem_append, List.mem_range'_1]
  constructor
  · rintro ⟨a, ha, hac⟩
    unfold canonicalize at hac
    simp only [whiteSpaceUnits, List.mem_cons, List.mem_singleton, List.not_mem_nil,
      or_false] at ha ⊢
    split at hac <;> split at hac <;> omega
  · intro h
    simp only [whiteSpaceUnits, List.mem_cons, List.mem_singleton, List.not_mem_nil,
      or_false] at h ⊢
    by_cases hup : 0x41 ≤ c ∧ c ≤ 0x5A
    · refine ⟨c + 0x20, by omega, ?_⟩
      unfold canonicalize
      rw [if_pos (by omega), if_neg (by omega)]
      omega
    · refine ⟨c, by omega, rfl⟩

/-- C7, refuted as stated: the titles `a<TAB>b` and `a<NBSP>b` come back unchanged,
although the tab (U+0009) and the no-break space (U+00A0) are outside the set
`[A-Za-z0-9 _.-]`, for which the claim gives `a_b`. -/
theorem sanitizeFilename_keeps_tab :
    specKeeps 0x09 = false ∧ specKeeps 0xA0 = false ∧
    sanitizeFilename [0x61, 0x09, 0x62] = [0x61, 0x09, 0x62] ∧
    sanitizeAsSpecified [0x61, 0x09, 0x62] = [0x61, 0x5F, 0x62] ∧
    sanitizeFilename [0x61, 0xA0, 0x62] = [0x61, 0xA0, 0x62] ∧
    sanitizeAsSpecified [0x61, 0xA0, 0x62] = [0x61, 0x5F, 0x62] := by
  decide

/-- C7, amended: for every title, `sanitizeFilename` replaces by an underscore every
UTF-16 code unit that is neither an ASCII letter, nor a digit, nor a white-space or
line-terminator character matched by `\s` (tab, line feed, space, no-break space, ...),
nor underscore, dot or hyphen, and leaves every other code unit unchanged. -/
theorem sanitizeFilename_replaces_outside_class (filename : JsString) :
    sanitizeFilename filename =
      filename.map (fun c =>
        if (0x41 ≤ c ∧ c ≤ 0x5A) ∨ (0x61 ≤ c ∧ c ≤ 0x7A) ∨ (0x30 ≤ c ∧ c ≤ 0x39) ∨
            c ∈ whiteSpaceUnits ∨ c = 0x2D ∨ c = 0x5F ∨ c = 0x2E
        then c else 0x5F) := by
  unfold sanitizeFilename
  induction filename with
  | nil => rfl
  | cons c cs ih =>
    unfold replaceAll
    rw [List.map_cons, ih]
    by_cases hc : sanitizeMatches c = false
    · have hk := (sanitizeMatches_eq_false_iff c).1 hc
      rw [if_pos hk, hc]
      rfl
    · have hk : ¬ _ := fun hk => hc ((sanitizeMatches_eq_false_iff c).2 hk)
      rw [if_neg hk]
      simp only [Bool.not_eq_false] at hc
      rw [hc]
      rfl

/-! ## ProgressBar -/

theorem lastFigure_append_update (calls : List BarCall) (v : Int) (p : Payload) :
    lastFigure (calls ++ [.update v p]) = some (v, p) := by
  simp [lastFigure, List.foldl_append]

theorem lastFigure_append_update_stop (calls : List BarCall) (v : Int) (p : Payload) :
    lastFigure (calls ++ [.update v p, .stop]) = some (v, p) := by
  simp [lastFigure, List.foldl_append]

theorem update_total (pb : ProgressBar) (now downloaded : Int) :
    (pb.update now downloaded).total = pb.total := by
  unfold ProgressBar.update
  split <;> rfl

theorem updates_total (calls : List (Int × Int)) (pb : ProgressBar) :
    (pb.updates calls).total = pb.total := by
  induction calls generalizing pb with
  | nil => rfl
  | cons c cs ih =>
    have := ih (pb.update c.1 c.2)
    simp only [ProgressBar.updates, List.foldl_cons] at this ⊢
    rw [this, update_total]

theorem update_of_not_emits (pb : ProgressBar) (now downloaded : Int)
    (h : pb.emits now = false) : pb.update now downloaded = pb := by
  unfold ProgressBar.update
  rw [h]
  simp

/-- The guard of `update` in terms of the two clock readings. -/
theorem emits_iff (pb : ProgressBar) (now : Int) :
    pb.emits now = true ↔ 500 ≤ now - pb.lastUpdate := by
  unfold ProgressBar.emits ProgressBar.timeDiff JsNum.div
  simp only [show (1000 : ℚ) ≠ 0 by norm_num, if_false, JsNum.ge, decide_eq_true_eq]
  rw [le_div_iff₀ (by norm_num : (0 : ℚ) < 1000)]
  have : (1 / 2 * 1000 : ℚ) = ((500 : Int) : ℚ) := by norm_num
  rw [this, Int.cast_le]

/-- C8: for every ProgressBar state and two `update` calls whose clock readings are less
than 500 ms apart, at most one of them emits; if the first emits, the second leaves the
whole state unchanged, in particular the calls made on the bar, `lastUpdate` and
`lastBytes`. -/
theorem update_throttled (pb : ProgressBar) (t1 d1 t2 d2 : Int) (h : t2 - t1 < 500) :
    ¬ (pb.emits t1 = true ∧ (pb.update t1 d1).emits t2 = true) ∧
    (pb.emits t1 = true →
      (pb.update t1 d1).update t2 d2 = pb.update t1 d1 ∧
      ((pb.update t1 d1).update t2 d2).bar = (pb.update t1 d1).bar ∧
      ((pb.update t1 d1).update t2 d2).lastUpdate = t1 ∧
      ((pb.update t1 d1).update t2 d2).lastBytes = d1) := by
  have key : pb.emits t1 = true → (pb.update t1 d1).emits t2 = false := by
    intro h1
    have hlu : (pb.update t1 d1).lastUpdate = t1 := by
      unfold ProgressBar.update
      rw [if_pos h1]
    cases hem : (pb.update t1 d1).emits t2 with
    | false => rfl
    | true =>
      have := (emits_iff _ _).1 hem
      rw [hlu] at this
      omega
  refine ⟨fun ⟨h1, h2⟩ => by rw [key h1] at h2; exact absurd h2 (by simp), ?_⟩
  intro h1
  have hsame : (pb.update t1 d1).update t2 d2 = pb.update t1 d1 :=
    update_of_not_emits _ _ _ (key h1)
  refine ⟨hsame, by rw [hsame], ?_, ?_⟩
  · rw [hsame]
    unfold ProgressBar.update
    rw [if_pos h1]
  · rw [hsame]
    unfold ProgressBar.update
    rw [if_pos h1]

/-- C8, at a fresh bar with updates 600 ms and 700 ms after its creation. -/
theorem update_throttled_witness :
    ((ProgressBar.new 1000 0).update 600 100).update 700 200
      = (ProgressBar.new 1000 0).update 600 100 :=
  ((update_throttled (ProgressBar.new 1000 0) 600 100 700 200 (by decide)).2
    ((emits_iff _ _).2 (by decide))).1

theorem div_fin_fin (a b : ℚ) :
    JsNum.div (.fin a) (.fin b) =
      if b = 0 then (if a = 0 then .nan else if 0 < a then .posInf else .negInf)
      else .fin (a / b) := rfl

theorem timeDiff_eq (pb : ProgressBar) (now : Int) :
    pb.timeDiff now = .fin (((now - pb.lastUpdate : Int) : ℚ) / 1000) := by
  unfold ProgressBar.timeDiff JsNum.div
  simp

theorem formatTime_posInf : formatTime .posInf = "Infinityh NaNm" := by decide

/-- C9, where the code departs from it: an `update` that emits while no byte has arrived
since the last emission and the download is incomplete computes the speed zero, divides
the remaining bytes by it, and reports the text of the infinite quotient as ETA, not the
text "calculating...". -/
theorem zero_speed_eta_is_infinite_quotient (pb : ProgressBar) (now : Int)
    (hemit : pb.emits now = true) (hleft : pb.lastBytes < pb.total) :
    pb.speed now pb.lastBytes = .fin 0 ∧
    pb.eta now pb.lastBytes = .posInf ∧
    lastFigure (pb.update now pb.lastBytes).bar =
      some (pb.lastBytes,
        { downloaded := formatSize (.fin pb.lastBytes), total := none,
          speed := formatSize (.fin 0), eta := "Infinityh NaNm" }) := by
  have h500 := (emits_iff pb now).1 hemit
  have hq : (((now - pb.lastUpdate : Int) : ℚ) / 1000) ≠ 0 := by
    have : (500 : ℚ) ≤ ((now - pb.lastUpdate : Int) : ℚ) := by exact_mod_cast h500
    have hpos : (0 : ℚ) < ((now - pb.lastUpdate : Int) : ℚ) / 1000 := by positivity
    exact ne_of_gt hpos
  have hspeed : pb.speed now pb.lastBytes = .fin 0 := by
    unfold ProgressBar.speed
    rw [timeDiff_eq, div_fin_fin, if_neg hq, sub_self, Int.cast_zero, zero_div]
  have heta : pb.eta now pb.lastBytes = .posInf := by
    unfold ProgressBar.eta
    rw [hspeed]
    have hpos : (0 : ℚ) < ((pb.total - pb.lastBytes : Int) : ℚ) := by
      have : (0 : Int) < pb.total - pb.lastBytes := by omega
      exact_mod_cast this
    rw [div_fin_fin, if_pos rfl, if_neg (ne_of_gt hpos), if_pos hpos]
  refine ⟨hspeed, heta, ?_⟩
  unfold ProgressBar.update
  rw [if_pos hemit]
  simp only [lastFigure_append_update, hspeed, heta, formatTime_posInf]

/-- C9, the failing run: a bar for 1000 bytes created at clock reading 0 and updated at
clock reading 500 with 0 bytes downloaded reports the ETA "Infinityh NaNm". -/
theorem zero_speed_eta_is_infinite_quotient_witness :
    lastFigure ((ProgressBar.new 1000 0).update 500 (ProgressBar.new 1000 0).lastBytes).bar =
      some ((ProgressBar.new 1000 0).lastBytes,
        { downloaded := formatSize (.fin (ProgressBar.new 1000 0).lastBytes), total := none,
          speed := formatSize (.fin 0), eta := "Infinityh NaNm" }) :=
  (zero_speed_eta_is_infinite_quotient (ProgressBar.new 1000 0) 500
    ((emits_iff _ _).2 (by decide)) (by decide)).2.2

/-- C10: for every total `T`, every clock reading at construction and every sequence of
`update` calls (so also one with strictly increasing byte counts up to `T`, at arbitrary
times), the figure last handed to the bar after `finish()` has the value `T`, the
downloaded text of `T`, the speed "0B" and the ETA "0s". -/
theorem finish_reports_total (T t0 : Int) (calls : List (Int × Int)) :
    lastFigure (((ProgressBar.new T t0).updates calls).finish).bar =
      some (T, { downloaded := formatSize (.fin T), total := none, speed := "0B",
                 eta := "0s" }) := by
  unfold ProgressBar.finish
  simp only [lastFigure_append_update_stop, updates_total]
  rfl

/-! ## The transcode decision and the merge command -/

theorem mergeCommand_video_copy (v a o : JsString) (up : Bool) (tb : Option String) :
    FfmpegCall.outputOptions ["-c:v copy"] ∈ mergeCommand v a o up tb := by
  simp [mergeCommand]

theorem mergeCommand_reencoded (v a o : JsString) (tb : Option String) :
    AudioReencoded (mergeCommand v a o true tb) tb := by
  simp [AudioReencoded, mergeCommand]

theorem mergeCommand_copied (v a o : JsString) (tb : Option String) :
    AudioCopied (mergeCommand v a o false tb) := by
  simp [AudioCopied, mergeCommand]

theorem needsUpscaling_null (audioBitrate : Option Nat) :
    needsUpscaling audioBitrate none = false := by
  cases audioBitrate <;>
    simp [needsUpscaling, requestedBitrateOf, targetTruthy, sourceBitrateOf, jsGt]

theorem needsUpscaling_iff (s : Nat) (text : String) (r : Int)
    (hr : parseInt text.toList = some r) :
    needsUpscaling (some s) (some text) = true ↔ (s : Int) < r := by
  have hne : text ≠ "" := by
    intro h
    subst h
    have hnan : parseInt "".toList = none := by decide
    rw [hnan] at hr
    exact absurd hr (by simp)
  have htr : targetTruthy (some text) = true := by simpa [targetTruthy] using hne
  have hreq : requestedBitrateOf (some text) (sourceBitrateOf (some s)) = some r := by
    unfold requestedBitrateOf
    rw [if_pos htr]
    exact hr
  show jsGt (requestedBitrateOf (some text) (sourceBitrateOf (some s)))
    (sourceBitrateOf (some s)) = true ↔ (s : Int) < r
  rw [hreq]
  show decide (r > Int.ofNat s) = true ↔ (s : Int) < r
  simp

/-! ## The jobs -/

theorem mem_mkdirSync_self (fs : List JsString) (p : JsString) : p ∈ mkdirSync fs p := by
  unfold mkdirSync
  split
  · assumption
  · simp

theorem mem_mkdirSync_of_mem (fs : List JsString) (p q : JsString) (h : q ∈ fs) :
    q ∈ mkdirSync fs p := by
  unfold mkdirSync
  split
  · exact h
  · exact List.mem_append_left _ h

theorem not_mem_rmSync (fs : List JsString) (dir : JsString) : dir ∉ rmSync fs dir := by
  unfold rmSync
  simp [List.mem_filter]

theorem concludeJob_ending (tempDir : JsString) (w : World) (e : BodyEnd) :
    (concludeJob tempDir w e).ending = e := by
  unfold concludeJob
  cases e with
  | returned f => simp only; split <;> rfl
  | thrown m => simp only; split <;> rfl
  | exited c => rfl

/-- When the `try` block ends by `return` or by an exception, the `finally` block leaves
no temporary directory. -/
theorem concludeJob_removes (tempDir : JsString) (w : World) (e : BodyEnd)
    (h : ∀ code, e ≠ .exited code) : tempDir ∉ (concludeJob tempDir w e).fs := by
  unfold concludeJob
  cases e with
  | returned f =>
    simp only
    split
    · exact not_mem_rmSync _ _
    · assumption
  | thrown m =>
    simp only
    split
    · exact not_mem_rmSync _ _
    · assumption
  | exited c => exact absurd rfl (h c)

theorem fetchStream_log (w : World) (formats : List RawFormat) (itag : Nat) (dest : JsString)
    (kind : String) (stream : Except String Unit) :
    (fetchStream w formats itag dest kind stream).1.log = w.log ++ [.streamOpened itag] := by
  unfold fetchStream
  simp only
  split
  · rfl
  · split
    · rfl
    · split <;> rfl

/-- When `getVideoInfo` exits the process, the `try` block of `downloadVideo` has only
created the output directory. -/
theorem downloadVideoBody_exited (env : Env) (videoItag audioItag : Nat)
    (targetBitrate : Option String) (outputPath : Option JsString) (tempDir : JsString)
    (w : World) (code : Nat) (msg : String) (h : getVideoInfo env.catalog = .exited code msg) :
    downloadVideoBody env videoItag audioItag targetBitrate outputPath tempDir w =
      ({ fs := mkdirSync w.fs (resolveOutputPath env outputPath),
         log := w.log ++ [.infoFailed msg] }, .exited code) := by
  unfold downloadVideoBody
  simp only [h]

/-- When `getVideoInfo` exits the process, the `try` block of `downloadAudioOnly` has
only created the output directory. -/
theorem downloadAudioOnlyBody_exited (env : Env) (outputPath : Option JsString)
    (tempDir : JsString) (w : World) (code : Nat) (msg : String)
    (h : getVideoInfo env.catalog = .exited code msg) :
    downloadAudioOnlyBody env outputPath tempDir w =
      ({ fs := mkdirSync w.fs (resolveOutputPath env outputPath),
         log := w.log ++ [.infoFailed msg] }, .exited code) := by
  unfold downloadAudioOnlyBody
  simp only [h]

/-- The outcome of `downloadVideo` when `getVideoInfo` exits the process. -/
theorem downloadVideo_exited (env : Env) (videoItag audioItag : Nat)
    (targetBitrate : Option String) (outputPath : Option JsString) (code : Nat) (msg : String)
    (h : getVideoInfo env.catalog = .exited code msg) :
    downloadVideo env videoItag audioItag targetBitrate outputPath =
      { fs := mkdirSync (mkdirSync env.fs (tempDirOf env)) (resolveOutputPath env outputPath)
        log := [.infoFailed msg]
        exitCode := code
        ending := .exited code } := by
  unfold downloadVideo
  simp only [downloadVideoBody_exited _ _ _ _ _ _ _ code msg h, concludeJob, List.nil_append]

/-- The outcome of `downloadAudioOnly` when `getVideoInfo` exits the process. -/
theorem downloadAudioOnly_exited (env : Env) (outputPath : Option JsString) (code : Nat)
    (msg : String) (h : getVideoInfo env.catalog = .exited code msg) :
    downloadAudioOnly env outputPath =
      { fs := mkdirSync (mkdirSync env.fs (tempDirOf env)) (resolveOutputPath env outputPath)
        log := [.infoFailed msg]
        exitCode := code
        ending := .exited code } := by
  unfold downloadAudioOnly
  simp only [downloadAudioOnlyBody_exited _ _ _ _ code msg h, concludeJob, List.nil_append]

/-- Without an allow-listed audio-only format `getVideoInfo` exits with status 1. -/
theorem getVideoInfo_exits_without_audio (info : RawInfo)
    (hno : ¬ ∃ f ∈ info.formats,
      f.hasAudio = true ∧ f.hasVideo = false ∧ f.itag ∈ AUDIO_ITAGS.map Prod.fst) :
    getVideoInfo (.ok info) = .exited 1 "No compatible video formats found" ∨
    getVideoInfo (.ok info) = .exited 1 "No compatible audio formats found" := by
  obtain ⟨ves, aes, hves, haes, hshape⟩ := getVideoInfo_shape info
  have h2 : aes = [] := (audio_entries_nil_iff info aes haes).2
    (fun ⟨f, hf, hfa⟩ => hno ⟨f, hf, (isAudioOnlyAllowed_iff f).1 hfa⟩)
  rw [hshape]
  by_cases h1 : ves = []
  · exact Or.inl (by rw [if_pos h1])
  · exact Or.inr (by rw [if_neg h1, if_pos h2])

/-- C1: for every run of `downloadVideo` and of `downloadAudioOnly` whose `try` block
ends by its `return` (success) or by an exception that reaches the job's `catch` (a
failed or unsized video or audio download, an ffmpeg error), the temporary directory
created at the start does not exist when the job concludes. -/
theorem temp_dir_removed_on_success_or_throw (env : Env) (videoItag audioItag : Nat)
    (targetBitrate : Option String) (outputPath : Option JsString) :
    (((∃ f, (downloadVideo env videoItag audioItag targetBitrate outputPath).ending
          = .returned f) ∨
      (∃ msg, (downloadVideo env videoItag audioItag targetBitrate outputPath).ending
          = .thrown msg)) →
      tempDirOf env ∉ (downloadVideo env videoItag audioItag targetBitrate outputPath).fs) ∧
    (((∃ f, (downloadAudioOnly env outputPath).ending = .returned f) ∨
      (∃ msg, (downloadAudioOnly env outputPath).ending = .thrown msg)) →
      tempDirOf env ∉ (downloadAudioOnly env outputPath).fs) := by
  constructor
  · intro h
    unfold downloadVideo at h ⊢
    simp only [concludeJob_ending] at h
    refine concludeJob_removes _ _ _ ?_
    intro code hc
    rw [hc] at h
    rcases h with ⟨f, hf⟩ | ⟨m, hm⟩
    · exact absurd hf (by simp)
    · exact absurd hm (by simp)
  · intro h
    unfold downloadAudioOnly at h ⊢
    simp only [concludeJob_ending] at h
    refine concludeJob_removes _ _ _ ?_
    intro code hc
    rw [hc] at h
    rcases h with ⟨f, hf⟩ | ⟨m, hm⟩
    · exact absurd hf (by simp)
    · exact absurd hm (by simp)

/-- C1, at a video job whose video stream fails. -/
theorem temp_dir_removed_on_success_or_throw_witness :
    tempDirOf brokenStreamEnv ∉ (downloadVideo brokenStreamEnv 137 140 none none).fs :=
  (temp_dir_removed_on_success_or_throw brokenStreamEnv 137 140 none none).1
    (Or.inr ⟨"Video download failed: socket hang up", by decide⟩)

/-- C2, where the code departs from it: when the catalog answer has no allow-listed
audio-only format, either job ends inside `getVideoInfo` by `process.exit(1)` after the
no-compatible-format message and before any stream is opened, but the `finally` block
is never reached and the temporary directory still exists when the process exits. -/
theorem temp_dir_left_when_no_audio_format (env : Env) (info : RawInfo)
    (videoItag audioItag : Nat) (targetBitrate : Option String) (outputPath : Option JsString)
    (hcat : env.catalog = .ok info)
    (hno : ¬ ∃ f ∈ info.formats,
      f.hasAudio = true ∧ f.hasVideo = false ∧ f.itag ∈ AUDIO_ITAGS.map Prod.fst) :
    ((downloadVideo env videoItag audioItag targetBitrate outputPath).exitCode = 1 ∧
      ((downloadVideo env videoItag audioItag targetBitrate outputPath).log =
          [.infoFailed "No compatible video formats found"] ∨
        (downloadVideo env videoItag audioItag targetBitrate outputPath).log =
          [.infoFailed "No compatible audio formats found"]) ∧
      (∀ itag, Event.streamOpened itag ∉
        (downloadVideo env videoItag audioItag targetBitrate outputPath).log) ∧
      tempDirOf env ∈ (downloadVideo env videoItag audioItag targetBitrate outputPath).fs) ∧
    ((downloadAudioOnly env outputPath).exitCode = 1 ∧
      ((downloadAudioOnly env outputPath).log =
          [.infoFailed "No compatible video formats found"] ∨
        (downloadAudioOnly env outputPath).log =
          [.infoFailed "No compatible audio formats found"]) ∧
      (∀ itag, Event.streamOpened itag ∉ (downloadAudioOnly env outputPath).log) ∧
      tempDirOf env ∈ (downloadAudioOnly env outputPath).fs) := by
  have hmem : tempDirOf env ∈
      mkdirSync (mkdirSync env.fs (tempDirOf env)) (resolveOutputPath env outputPath) :=
    mem_mkdirSync_of_mem _ _ _ (mem_mkdirSync_self _ _)
  have hex := getVideoInfo_exits_without_audio info hno
  rw [← hcat] at hex
  rcases hex with hmsg | hmsg
  · rw [downloadVideo_exited env videoItag audioItag targetBitrate outputPath 1 _ hmsg,
      downloadAudioOnly_exited env outputPath 1 _ hmsg]
    exact ⟨⟨rfl, Or.inl rfl, by simp, hmem⟩, ⟨rfl, Or.inl rfl, by simp, hmem⟩⟩
  · rw [downloadVideo_exited env videoItag audioItag targetBitrate outputPath 1 _ hmsg,
      downloadAudioOnly_exited env outputPath 1 _ hmsg]
    exact ⟨⟨rfl, Or.inr rfl, by simp, hmem⟩, ⟨rfl, Or.inr rfl, by simp, hmem⟩⟩

/-- C2, the failing run: a catalog answer whose only format is the video-only itag 137;
the video job exits with status 1 and the directory `/tmp/yt_download_u1` remains. -/
theorem temp_dir_left_when_no_audio_format_witness :
    (downloadVideo (sampleEnv videoOnlyInfo) 137 140 (some "320k") none).exitCode = 1 ∧
    js "/tmp/yt_download_u1" ∈
      (downloadVideo (sampleEnv videoOnlyInfo) 137 140 (some "320k") none).fs :=
  have h := (temp_dir_left_when_no_audio_format (sampleEnv videoOnlyInfo) videoOnlyInfo
    137 140 (some "320k") none rfl (by decide)).1
  ⟨h.1, h.2.2.2⟩

theorem concludeJob_ffmpegRun (tempDir : JsString) (w : World) (e : BodyEnd)
    (command : List FfmpegCall) (h : Event.ffmpegRun command ∈ (concludeJob tempDir w e).log) :
    Event.ffmpegRun command ∈ w.log := by
  unfold concludeJob at h
  cases e with
  | returned f =>
    simp only at h
    split at h
    · simpa using h
    · exact h
  | thrown m =>
    simp only at h
    split at h
    · simpa using h
    · simpa using h
  | exited c => exact h

/-- Every ffmpeg invocation of the `try` block of `downloadVideo` is the merge command,
built with the transcode decision computed from the selected audio format. -/
theorem downloadVideoBody_ffmpegRun (env : Env) (videoItag audioItag : Nat)
    (targetBitrate : Option String) (outputPath : Option JsString) (tempDir : JsString)
    (w : World) (command : List FfmpegCall)
    (h : Event.ffmpegRun command ∈
      (downloadVideoBody env videoItag audioItag targetBitrate outputPath tempDir w).1.log) :
    Event.ffmpegRun command ∈ w.log ∨
    ∃ info audioFormat v a o,
      getVideoInfo env.catalog = .returned info ∧
      info.formats.find? (fun f => f.itag == audioItag) = some audioFormat ∧
      command = mergeCommand v a o (needsUpscaling audioFormat.audioBitrate targetBitrate)
        targetBitrate := by
  unfold downloadVideoBody at h
  simp only at h
  split at h
  · left
    simpa using h
  · rename_i info hinfo
    split at h
    · left
      exact h
    · rename_i audioFormat hfind
      split at h
      · rename_i w1 msg hf1
        left
        have hl := fetchStream_log
          { fs := mkdirSync w.fs (resolveOutputPath env outputPath), log := w.log }
          info.formats videoItag (pathJoin tempDir (env.uuid2 ++ js ".mp4")) "video"
          env.videoStream
        rw [hf1] at hl
        simp only at h hl
        rw [hl] at h
        simpa using h
      · rename_i w1 hf1
        have hl := fetchStream_log
          { fs := mkdirSync w.fs (resolveOutputPath env outputPath), log := w.log }
          info.formats videoItag (pathJoin tempDir (env.uuid2 ++ js ".mp4")) "video"
          env.videoStream
        rw [hf1] at hl
        simp only at hl
        split at h
        · rename_i w2 msg hf2
          left
          have hl2 := fetchStream_log w1 info.formats audioItag
            (pathJoin tempDir (env.uuid3 ++ js "." ++ js audioFormat.container)) "audio"
            env.audioStream
          rw [hf2] at hl2
          simp only at h hl2
          rw [hl2, hl] at h
          simpa using h
        · rename_i w2 hf2
          have hl2 := fetchStream_log w1 info.formats audioItag
            (pathJoin tempDir (env.uuid3 ++ js "." ++ js audioFormat.container)) "audio"
            env.audioStream
          rw [hf2] at hl2
          simp only at hl2
          have hcases : Event.ffmpegRun command ∈ w2.log ++
              [Event.ffmpegRun (mergeCommand (pathJoin tempDir (env.uuid2 ++ js ".mp4"))
                (pathJoin tempDir (env.uuid3 ++ js "." ++ js audioFormat.container))
                (pathJoin (resolveOutputPath env outputPath)
                  (sanitizeFilename info.title ++ js ".mp4"))
                (needsUpscaling audioFormat.audioBitrate targetBitrate) targetBitrate)] := by
            split at h <;> exact h
          rw [hl2, hl] at hcases
          simp only [List.mem_append, List.mem_singleton, Event.ffmpegRun.injEq,
            reduceCtorEq, or_false] at hcases
          rcases hcases with hc | hc
          · exact Or.inl hc
          · exact Or.inr ⟨info, audioFormat, _, _, _, hinfo, hfind, hc⟩

/-- C3: every ffmpeg invocation of `downloadVideo` copies the video stream. With `s` the
`audioBitrate` of the selected audio format and `r` the number `parseInt` reads from the
`targetBitrate` argument, the audio is re-encoded, at 48000 Hz and with the bitrate
argument as given, when `r > s`, and copied when `r <= s`; it is copied as well when no
target bitrate is given. The transcode decision is `true` for r = 320, s = 128 and
`false` for r = 128, s = 320. -/
theorem merge_reencodes_audio_iff_upscaling (env : Env) (videoItag audioItag : Nat)
    (targetBitrate : Option String) (outputPath : Option JsString)
    (command : List FfmpegCall)
    (hrun : Event.ffmpegRun command ∈
      (downloadVideo env videoItag audioItag targetBitrate outputPath).log) :
    FfmpegCall.outputOptions ["-c:v copy"] ∈ command ∧
    (∃ info audioFormat,
      getVideoInfo env.catalog = .returned info ∧
      info.formats.find? (fun f => f.itag == audioItag) = some audioFormat ∧
      (targetBitrate = none → AudioCopied command) ∧
      (∀ (s : Nat) (text : String) (r : Int),
        audioFormat.audioBitrate = some s → targetBitrate = some text →
        parseInt text.toList = some r →
        ((s : Int) < r → AudioReencoded command targetBitrate) ∧
        (r ≤ (s : Int) → AudioCopied command))) ∧
    needsUpscaling (some 128) (some "320k") = true ∧
    needsUpscaling (some 320) (some "128k") = false := by
  have hbody := concludeJob_ffmpegRun _ _ _ _ hrun
  rcases downloadVideoBody_ffmpegRun _ _ _ _ _ _ _ _ hbody with h | h
  · exact absurd h (by simp)
  · obtain ⟨info, audioFormat, v, a, o, hinfo, hfind, hcmd⟩ := h
    subst hcmd
    refine ⟨mergeCommand_video_copy _ _ _ _ _, ⟨info, audioFormat, hinfo, hfind, ?_, ?_⟩,
      by decide, by decide⟩
    · intro hnone
      subst hnone
      rw [needsUpscaling_null]
      exact mergeCommand_copied _ _ _ _
    · intro s text r hs ht hr
      subst ht
      rw [hs]
      constructor
      · intro hlt
        rw [(needsUpscaling_iff s text r hr).2 hlt]
        exact mergeCommand_reencoded _ _ _ _
      · intro hle
        have hfalse : needsUpscaling (some s) (some text) = false := by
          cases hn : needsUpscaling (some s) (some text) with
          | false => rfl
          | true =>
            have := (needsUpscaling_iff s text r hr).1 hn
            omega
        rw [hfalse]
        exact mergeCommand_copied _ _ _ _

/-- C3, at the video job on `sampleInfo` with the audio itag 140 (128 kbps) and the
target bitrate `"320k"`: the merge command that is run copies the video stream. -/
theorem merge_reencodes_audio_iff_upscaling_witness :
    Event.ffmpegRun sampleMergeCommand ∈
      (downloadVideo (sampleEnv sampleInfo) 137 140 (some "320k") none).log ∧
    FfmpegCall.outputOptions ["-c:v copy"] ∈ sampleMergeCommand ∧
    AudioReencoded sampleMergeCommand (some "320k") :=
  have hrun : Event.ffmpegRun sampleMergeCommand ∈
      (downloadVideo (sampleEnv sampleInfo) 137 140 (some "320k") none).log := by decide
  have h := merge_reencodes_audio_iff_upscaling (sampleEnv sampleInfo) 137 140 (some "320k")
    none sampleMergeCommand hrun
  ⟨hrun, h.1, by
    obtain ⟨_, ⟨info, audioFormat, hinfo, hfind, _, hall⟩, _, _⟩ := h
    have hi : getVideoInfo (sampleEnv sampleInfo).catalog = .returned
        { title := sampleInfo.title
          formats := sampleInfo.formats
          availableVideoFormats :=
            [ { itag := 137, quality := "1080p (mp4/avc1)", resolution := 1080 },
              { itag := 299, quality := "1080p60 (mp4/avc1)", resolution := 1080 } ]
          availableAudioFormats :=
            [ { itag := 140, quality := "128kbps (m4a/mp4a)", bitrate := 128 } ] } := by
      decide
    rw [hi] at hinfo
    simp only [InfoOutcome.returned.injEq] at hinfo
    subst hinfo
    have hf : audioFormat = sampleAudio 140 128 := by
      have : List.find? (fun f => f.itag == 140) sampleInfo.formats
          = some (sampleAudio 140 128) := by decide
      rw [this] at hfind
      exact (Option.some.inj hfind).symm
    subst hf
    exact (hall 128 "320k" 320 rfl rfl (by decide)).1 (by decide)⟩

end YdlCli
